import Mathlib

/-!
Verification of the youki container runtime specification against a shallow
embedding of the source.  Each section embeds one subsystem of the code:

* `V2Cpu` / `SdCpu` — the cpu-shares conversion and the systemd cpu
  controller (`crates/libcgroups/src/v2/cpu.rs`,
  `crates/libcgroups/src/systemd/cpu.rs`);
* `V2Mem` — the cgroup-v2 memory controller
  (`crates/libcgroups/src/v2/memory.rs`);
* `Freezer` — the v1 freezer retry loop
  (`crates/libcgroups/src/v1/freezer.rs`);
* `CpuMask` — the systemd cpuset bitmask parser
  (`crates/libcgroups/src/systemd/cpuset.rs`);
* `MountOpts` — the rootfs mount-option parser
  (`crates/libcontainer/src/rootfs/utils.rs`);
* `Seccomp` — the seccomp installer (`crates/libcontainer/src/seccomp/mod.rs`);
* `ContainerState` — status refresh
  (`crates/libcontainer/src/container/container.rs`);
* `DevBpf` — the device-cgroup eBPF compiler and an interpreter for the
  emitted instruction set (`crates/libcgroups/src/v2/devices/program.rs`).

Machine integers are modelled as `Nat`/`Int` with explicit `% 2 ^ w` at the
operations where the Rust code wraps; operations that panic in Rust
(division by zero, out-of-bounds bit set) are modelled with `Option`.
-/

namespace V2Cpu

/-- `Cpu::convert_shares_to_cgroup2` from `v2/cpu.rs`.  `shares` is a `u64`;
`saturating_sub` is `Nat` subtraction, the multiplication wraps at `2 ^ 64`
(release-mode Rust), and the result is clamped by `weight.min(10000)`. -/
def convert_shares_to_cgroup2 (shares : Nat) : Nat :=
  if shares = 0 then 0
  else min (1 + ((shares - 2) * 9999) % 2 ^ 64 / 262142) 10000

end V2Cpu

namespace SdCpu

/-- `convert_shares_to_cgroup2` from `systemd/cpu.rs`.  Identical to the v2
variant except that there is no `min(10000)` clamp. -/
def convert_shares_to_cgroup2 (shares : Nat) : Nat :=
  if shares = 0 then 0
  else 1 + ((shares - 2) * 9999) % 2 ^ 64 / 262142

/-- The subset of `oci_spec::runtime::LinuxCpu` read by the systemd cpu
controller. `shares`, `period` are `u64`; `quota`, `realtime_runtime` are
`i64`; `realtime_period` is `u64`. -/
structure LinuxCpu where
  shares : Option Nat
  quota : Option Int
  period : Option Nat
  realtime_runtime : Option Int
  realtime_period : Option Nat

/-- `Cpu::is_realtime_requested` from `systemd/cpu.rs`. -/
def is_realtime_requested (cpu : LinuxCpu) : Bool :=
  cpu.realtime_period.isSome || cpu.realtime_runtime.isSome

inductive SystemdCpuError where
  | RealtimeSystemd
  deriving DecidableEq, Repr

/-- The `CPUWeight` insertions performed by `Cpu::apply` in `systemd/cpu.rs`
(the `cpu.shares()` block). -/
def weightProps (shares : Option Nat) : List (String × Nat) :=
  match shares with
  | some sh =>
    let w := convert_shares_to_cgroup2 sh
    if w ≠ 0 then [("CPUWeight", w)] else []
  | none => []

/-- The `CPUQuotaPerSecUSec` value computed by `Cpu::apply`.  `none` models the
panic of `specified_quota as u64 * 1_000_000 / period` when a zero period
accompanies a positive quota; the multiplication wraps at `2 ^ 64`. -/
def quotaVal (quota : Option Int) (period : Option Nat) : Option Nat :=
  match quota with
  | some q =>
    if 0 < q then
      if period.getD 100000 = 0 then none
      else some (q.toNat * 1000000 % 2 ^ 64 / period.getD 100000)
    else some (2 ^ 64 - 1)
  | none => some (2 ^ 64 - 1)

/-- The `CPUQuotaPeriodUSec` value computed by `Cpu::apply`. -/
def periodProp (period : Option Nat) : Nat :=
  match period with
  | some p => if 0 < p then p else 100000
  | none => 100000

/-- `Cpu::apply` from `systemd/cpu.rs`, with the property map modelled as the
ordered list of insertions (all keys distinct).  Returns `none` when the Rust
code panics (division by zero in the quota computation). -/
def apply (cpu : LinuxCpu) : Option (Except SystemdCpuError (List (String × Nat))) :=
  if is_realtime_requested cpu then some (.error .RealtimeSystemd) else
  match quotaVal cpu.quota cpu.period with
  | none => none
  | some qv =>
    some (.ok (weightProps cpu.shares ++
      [("CPUQuotaPerSecUSec", qv), ("CPUQuotaPeriodUSec", periodProp cpu.period)]))

end SdCpu

/-- C2 counterexample: at `shares = 262171` (inside `[0, 2 ^ 32)`), the
systemd conversion yields `10001`, outside the claimed range `[1, 10000]`. -/
theorem C2_counterexample :
    262171 < 2 ^ 32 ∧ 262171 ≠ 0 ∧
    SdCpu.convert_shares_to_cgroup2 262171 = 10001 ∧ ¬ (10001 ≤ 10000) := by
  refine ⟨by norm_num, by norm_num, ?_, by norm_num⟩
  norm_num [SdCpu.convert_shares_to_cgroup2]

/-- C2 (amended): for `shares ∈ [0, 2 ^ 32)` both conversions are zero iff
`shares = 0` and are monotone; the v2 conversion lies in `[1, 10000]` for
nonzero shares, while the systemd conversion (which lacks the clamp) is only
bounded below by 1. -/
theorem C2_shares_conversion (s t : Nat) (hs : s < 2 ^ 32) (ht : t < 2 ^ 32)
    (hst : s ≤ t) :
    (V2Cpu.convert_shares_to_cgroup2 s = 0 ↔ s = 0) ∧
    (SdCpu.convert_shares_to_cgroup2 s = 0 ↔ s = 0) ∧
    (s ≠ 0 → 1 ≤ V2Cpu.convert_shares_to_cgroup2 s ∧
      V2Cpu.convert_shares_to_cgroup2 s ≤ 10000 ∧
      1 ≤ SdCpu.convert_shares_to_cgroup2 s) ∧
    V2Cpu.convert_shares_to_cgroup2 s ≤ V2Cpu.convert_shares_to_cgroup2 t ∧
    SdCpu.convert_shares_to_cgroup2 s ≤ SdCpu.convert_shares_to_cgroup2 t := by
  have hmod : ∀ u : Nat, u < 2 ^ 32 → (u - 2) * 9999 % 2 ^ 64 = (u - 2) * 9999 := by
    intro u hu
    apply Nat.mod_eq_of_lt
    calc (u - 2) * 9999 ≤ 2 ^ 32 * 9999 := by
          exact Nat.mul_le_mul_right _ (le_of_lt (lt_of_le_of_lt (Nat.sub_le _ _) hu))
      _ < 2 ^ 64 := by norm_num
  constructor
  · unfold V2Cpu.convert_shares_to_cgroup2
    constructor
    · intro h
      by_contra hne
      simp only [if_neg hne] at h
      omega
    · intro h; simp [h]
  constructor
  · unfold SdCpu.convert_shares_to_cgroup2
    constructor
    · intro h
      by_contra hne
      simp only [if_neg hne] at h
      omega
    · intro h; simp [h]
  refine ⟨?_, ?_, ?_⟩
  · intro hne
    unfold V2Cpu.convert_shares_to_cgroup2 SdCpu.convert_shares_to_cgroup2
    simp only [if_neg hne]
    refine ⟨?_, ?_, ?_⟩
    · exact le_min (Nat.le_add_right 1 _) (by norm_num)
    · exact min_le_right _ _
    · exact Nat.le_add_right 1 _
  · unfold V2Cpu.convert_shares_to_cgroup2
    by_cases h0 : s = 0
    · simp [h0]
    · have ht0 : t ≠ 0 := by omega
      simp only [if_neg h0, if_neg ht0]
      apply min_le_min _ le_rfl
      apply Nat.add_le_add_left
      rw [hmod s hs, hmod t ht]
      exact Nat.div_le_div_right (Nat.mul_le_mul_right _ (Nat.sub_le_sub_right hst 2))
  · unfold SdCpu.convert_shares_to_cgroup2
    by_cases h0 : s = 0
    · simp [h0]
    · have ht0 : t ≠ 0 := by omega
      simp only [if_neg h0, if_neg ht0]
      apply Nat.add_le_add_left
      rw [hmod s hs, hmod t ht]
      exact Nat.div_le_div_right (Nat.mul_le_mul_right _ (Nat.sub_le_sub_right hst 2))

/-- C2 witness: the amended statement instantiated at `s = 2`, `t = 1024`. -/
theorem C2_shares_conversion_witness :
    (V2Cpu.convert_shares_to_cgroup2 2 = 0 ↔ (2 : Nat) = 0) ∧
    (SdCpu.convert_shares_to_cgroup2 2 = 0 ↔ (2 : Nat) = 0) ∧
    ((2 : Nat) ≠ 0 → 1 ≤ V2Cpu.convert_shares_to_cgroup2 2 ∧
      V2Cpu.convert_shares_to_cgroup2 2 ≤ 10000 ∧
      1 ≤ SdCpu.convert_shares_to_cgroup2 2) ∧
    V2Cpu.convert_shares_to_cgroup2 2 ≤ V2Cpu.convert_shares_to_cgroup2 1024 ∧
    SdCpu.convert_shares_to_cgroup2 2 ≤ SdCpu.convert_shares_to_cgroup2 1024 :=
  C2_shares_conversion 2 1024 (by norm_num) (by norm_num) (by norm_num)

/-- C7 counterexample: a positive quota with a specified zero period makes
`Cpu::apply` divide by zero (a panic, modelled as `none`), so no
`CPUQuotaPerSecUSec` property is produced; and a huge quota wraps at
`2 ^ 64`, so the property differs from `quota * 1_000_000 / period`. -/
theorem C7_counterexample :
    SdCpu.apply ⟨none, some 1, some 0, none, none⟩ = none ∧
    SdCpu.apply ⟨none, some (2 ^ 50), none, none, none⟩ =
      some (.ok [("CPUQuotaPerSecUSec", 6485183463413), ("CPUQuotaPeriodUSec", 100000)]) ∧
    (6485183463413 : Nat) ≠ 2 ^ 50 * 1000000 / 100000 := by
  refine ⟨rfl, ?_, by norm_num⟩
  rfl

/-- The quota value the claim predicts for `CPUQuotaPerSecUSec` (spec-side,
written from the claim's words, for comparison with `SdCpu.apply`). -/
def sdQuotaSpec (quota : Option Int) (period : Option Nat) : Nat :=
  match quota with
  | some q => if 0 < q then q.toNat * 1000000 / period.getD 100000 else 2 ^ 64 - 1
  | none => 2 ^ 64 - 1

/-- The period value the claim predicts for `CPUQuotaPeriodUSec` (spec-side). -/
def sdPeriodSpec (period : Option Nat) : Nat :=
  match period with
  | some p => if 0 < p then p else 100000
  | none => 100000

/-- C7 (amended): with realtime fields absent, provided that whenever a
positive quota is specified the effective period is nonzero and
`quota * 1_000_000` does not overflow `u64`: `CPUQuotaPerSecUSec` equals
`quota * 1_000_000 / period` (period defaulting to `100_000` when
unspecified) for a positive quota and `u64::MAX` otherwise, and
`CPUQuotaPeriodUSec` equals the specified period when positive and `100_000`
otherwise. -/
theorem C7_systemd_cpu_quota (cpu : SdCpu.LinuxCpu)
    (hrt1 : cpu.realtime_period = none) (hrt2 : cpu.realtime_runtime = none)
    (hq : ∀ q, cpu.quota = some q → 0 < q →
      cpu.period.getD 100000 ≠ 0 ∧ q.toNat * 1000000 < 2 ^ 64) :
    ∃ props, SdCpu.apply cpu = some (.ok props) ∧
      props.lookup "CPUQuotaPerSecUSec" = some (sdQuotaSpec cpu.quota cpu.period) ∧
      props.lookup "CPUQuotaPeriodUSec" = some (sdPeriodSpec cpu.period) := by
  obtain ⟨sh, q, per, rr, rp⟩ := cpu
  dsimp only at hrt1 hrt2 hq ⊢
  subst hrt1 hrt2
  have hlookup : ∀ wp : List (String × Nat),
      wp = [] ∨ (∃ w, wp = [("CPUWeight", w)]) →
      ∀ a b : Nat,
      (wp ++ [("CPUQuotaPerSecUSec", a), ("CPUQuotaPeriodUSec", b)]).lookup
        "CPUQuotaPerSecUSec" = some a ∧
      (wp ++ [("CPUQuotaPerSecUSec", a), ("CPUQuotaPeriodUSec", b)]).lookup
        "CPUQuotaPeriodUSec" = some b := by
    rintro wp (rfl | ⟨w, rfl⟩) a b
    · exact ⟨by simp [List.lookup], by simp [List.lookup]⟩
    · exact ⟨by simp [List.lookup], by simp [List.lookup]⟩
  have hwpshape : SdCpu.weightProps sh = [] ∨
      ∃ w, SdCpu.weightProps sh = [("CPUWeight", w)] := by
    cases sh with
    | none => exact Or.inl rfl
    | some shv =>
      by_cases hw : SdCpu.convert_shares_to_cgroup2 shv ≠ 0
      · exact Or.inr ⟨SdCpu.convert_shares_to_cgroup2 shv,
          by simp [SdCpu.weightProps, hw]⟩
      · exact Or.inl (by simp [SdCpu.weightProps, hw])
  have hquota : SdCpu.quotaVal q per = some (sdQuotaSpec q per) := by
    cases q with
    | none => rfl
    | some qv =>
      by_cases hpos : 0 < qv
      · obtain ⟨hper, hov⟩ := hq qv rfl hpos
        simp only [SdCpu.quotaVal, sdQuotaSpec, if_pos hpos, if_neg hper,
          Nat.mod_eq_of_lt hov]
      · simp [SdCpu.quotaVal, sdQuotaSpec, hpos]
  have hperiod : SdCpu.periodProp per = sdPeriodSpec per := by
    cases per <;> rfl
  obtain ⟨hl1, hl2⟩ :=
    hlookup (SdCpu.weightProps sh) hwpshape (sdQuotaSpec q per) (sdPeriodSpec per)
  refine ⟨_, ?_, hl1, hl2⟩
  unfold SdCpu.apply
  have hrt : SdCpu.is_realtime_requested ⟨sh, q, per, none, none⟩ = false := rfl
  rw [hrt]
  dsimp only
  rw [hquota, hperiod]
  rfl

/-- C7 witness: the amended statement at shares 1024, quota 50000, period
250000. -/
theorem C7_systemd_cpu_quota_witness :
    ∃ props, SdCpu.apply ⟨some 1024, some 50000, some 250000, none, none⟩ =
        some (.ok props) ∧
      props.lookup "CPUQuotaPerSecUSec" =
        some (sdQuotaSpec (some 50000) (some 250000)) ∧
      props.lookup "CPUQuotaPeriodUSec" = some (sdPeriodSpec (some 250000)) :=
  C7_systemd_cpu_quota ⟨some 1024, some 50000, some 250000, none, none⟩ rfl rfl
    (by
      intro q hq hpos
      injection hq with h
      subst h
      exact ⟨by norm_num, by decide⟩)

namespace V2Mem

inductive V2MemoryControllerError where
  | MemoryValue (v : Int)
  | SwapValue (v : Int)
  | SwapTooSmall (swap limit : Int)
  | SwapWithoutLimit
  | MemoryReservation (v : Int)
  deriving DecidableEq, Repr

/-- The fields of `oci_spec::runtime::LinuxMemory` read by `Memory::apply` in
`v2/memory.rs` (all `i64`). -/
structure LinuxMemory where
  limit : Option Int
  swap : Option Int
  reservation : Option Int

/-- `Memory::set` from `v2/memory.rs`: a value of `0` writes nothing, `-1`
writes the string `max`, anything else the decimal value.  A write is a
`(file, content)` pair. -/
def set (file : String) (val : Int) : List (String × String) :=
  if val = 0 then []
  else if val = -1 then [(file, "max")]
  else [(file, toString val)]

/-- `Memory::apply` from `v2/memory.rs`, returning the ordered list of cgroup
file writes it performs. -/
def apply (memory : LinuxMemory) :
    Except V2MemoryControllerError (List (String × String)) :=
  if memory.reservation = none ∧ memory.limit = none ∧ memory.swap = none then
    .ok []
  else do
    let mainWrites ←
      match memory.limit with
      | some limit =>
        if limit < -1 then .error (.MemoryValue limit)
        else
          match memory.swap with
          | some swap =>
            if swap < -1 then .error (.SwapValue swap)
            else if swap = -1 ∨ limit = -1 then
              .ok (set "memory.swap.max" swap ++ set "memory.max" limit)
            else if swap < limit then .error (.SwapTooSmall swap limit)
            else .ok (set "memory.swap.max" (swap - limit) ++ set "memory.max" limit)
          | none =>
            .ok ((if limit = -1 then set "memory.swap.max" (-1) else []) ++
              set "memory.max" limit)
      | none =>
        if memory.swap.isSome then .error .SwapWithoutLimit else .ok []
    let resWrites ←
      match memory.reservation with
      | some r =>
        if r < -1 then .error (.MemoryReservation r) else .ok (set "memory.low" r)
      | none => .ok ([] : List (String × String))
    .ok (mainWrites ++ resWrites)

end V2Mem

/-- C3 counterexample: with `limit = -1` and `swap = 100`, the code writes the
raw swap value `100` to `memory.swap.max`, not `max` as the claim states. -/
theorem C3_counterexample :
    V2Mem.apply ⟨some (-1), some 100, none⟩ =
      .ok [("memory.swap.max", "100"), ("memory.max", "max")] ∧
    ("memory.swap.max", "max") ∉
      [("memory.swap.max", "100"), ("memory.max", ("max" : String))] := by
  constructor
  · rfl
  · decide

/-- C3 (amended): for a v2 memory resource with both limit and swap given
(reservation absent): values `< -1` are rejected (`MemoryValue` before
`SwapValue`); if either value is `-1` the raw swap value is handed to the
0-skipping/`-1`-to-`max` setter for `memory.swap.max` (so `max` is written
only when `swap = -1`) and the limit likewise for `memory.max`; otherwise
`swap < limit` fails with `SwapTooSmall` and `swap - limit` is written to
`memory.swap.max` with the limit to `memory.max`; a swap given without a
limit fails with `SwapWithoutLimit`. -/
theorem C3_v2_memory_swap (limit swap : Int) :
    (limit < -1 →
      V2Mem.apply ⟨some limit, some swap, none⟩ = .error (.MemoryValue limit)) ∧
    (-1 ≤ limit → swap < -1 →
      V2Mem.apply ⟨some limit, some swap, none⟩ = .error (.SwapValue swap)) ∧
    (-1 ≤ limit → -1 ≤ swap → (swap = -1 ∨ limit = -1) →
      V2Mem.apply ⟨some limit, some swap, none⟩ =
        .ok (V2Mem.set "memory.swap.max" swap ++ V2Mem.set "memory.max" limit)) ∧
    (-1 < limit → -1 < swap → swap < limit →
      V2Mem.apply ⟨some limit, some swap, none⟩ = .error (.SwapTooSmall swap limit)) ∧
    (-1 < limit → -1 < swap → limit ≤ swap →
      V2Mem.apply ⟨some limit, some swap, none⟩ =
        .ok (V2Mem.set "memory.swap.max" (swap - limit) ++
          V2Mem.set "memory.max" limit)) ∧
    V2Mem.apply ⟨none, some swap, none⟩ = .error .SwapWithoutLimit := by
  refine ⟨?_, ?_, ?_, ?_, ?_, ?_⟩
  · intro h1
    simp only [V2Mem.apply]
    rw [if_neg (by simp)]
    simp only [if_pos h1]
    rfl
  · intro h1 h2
    have h1n : ¬ limit < -1 := by omega
    simp only [V2Mem.apply]
    rw [if_neg (by simp)]
    simp only [h1n, if_false, if_pos h2]
    rfl
  · intro h1 h2 h3
    have h1n : ¬ limit < -1 := by omega
    have h2n : ¬ swap < -1 := by omega
    simp only [V2Mem.apply]
    rw [if_neg (by simp)]
    simp only [h1n, if_false, h2n, if_pos h3]
    show Except.ok _ = _
    simp
  · intro h1 h2 h3
    have h1n : ¬ limit < -1 := by omega
    have h2n : ¬ swap < -1 := by omega
    have h3n : ¬ (swap = -1 ∨ limit = -1) := by omega
    simp only [V2Mem.apply]
    rw [if_neg (by simp)]
    simp only [h1n, if_false, h2n, if_neg h3n, if_pos h3]
    rfl
  · intro h1 h2 h3
    have h1n : ¬ limit < -1 := by omega
    have h2n : ¬ swap < -1 := by omega
    have h3n : ¬ (swap = -1 ∨ limit = -1) := by omega
    have h4n : ¬ swap < limit := by omega
    simp only [V2Mem.apply]
    rw [if_neg (by simp)]
    simp only [h1n, if_false, h2n, if_neg h3n, h4n, if_false]
    show Except.ok _ = _
    simp
  · simp only [V2Mem.apply]
    rw [if_neg (by simp)]
    rfl

/-- C3 witness: the amended statement at the spec's concrete scenario,
`limit = 200 MiB`, `swap = 300 MiB` (success) and `swap = 100 MiB`
(`SwapTooSmall`). -/
theorem C3_v2_memory_swap_witness :
    V2Mem.apply ⟨some 209715200, some 314572800, none⟩ =
      .ok [("memory.swap.max", "104857600"), ("memory.max", "209715200")] ∧
    V2Mem.apply ⟨some 209715200, some 104857600, none⟩ =
      .error (.SwapTooSmall 104857600 209715200) := by
  constructor
  · have h := (C3_v2_memory_swap 209715200 314572800).2.2.2.2.1
      (by norm_num) (by norm_num) (by norm_num)
    rw [h]
    rfl
  · exact (C3_v2_memory_swap 209715200 104857600).2.2.2.1
      (by norm_num) (by norm_num) (by norm_num)

/-- Interpret a `Nat` (the bits of a `w`-bit machine word) as a signed value,
i.e. the result of an `as iW` cast in Rust. -/
def wrapSigned (w : Nat) (i : Int) : Int :=
  (i + 2 ^ (w - 1)) % 2 ^ w - 2 ^ (w - 1)

namespace ContainerState

/-- `ContainerStatus` from `container/state.rs`. -/
inductive ContainerStatus where
  | Creating
  | Created
  | Running
  | Stopped
  | Paused
  deriving DecidableEq, Repr

/-- `procfs::process::ProcState` (the `/proc/<pid>/stat` state field). -/
inductive ProcState where
  | Running
  | Sleeping
  | Waiting
  | Zombie
  | Stopped
  | Tracing
  | Dead
  | Wakekill
  | Waking
  | Parked
  | Idle
  deriving DecidableEq, Repr

/-- Outcome of inspecting a pid through procfs in `refresh_status`:
`noProcess` models `Process::new(pid)` returning `Err` (the `/proc/<pid>`
entry cannot be opened); `statError` models `proc.stat()?` / `.state()?`
failing (the error propagates); `state s` is the parsed process state. -/
inductive ProcInfo where
  | noProcess
  | statError
  | state (s : ProcState)
  deriving DecidableEq, Repr

/-- `Container::refresh_status` from `container/container.rs`, as a function
from the current status, the recorded pid and the procfs view to the new
status (`Except` mirrors the `?` propagation of stat read errors, in which
case the status is not updated). -/
def refresh_status (current : ContainerStatus) (pid : Option Nat)
    (proc : Nat → ProcInfo) : Except Unit ContainerStatus :=
  match pid with
  | some p =>
    match proc p with
    | .noProcess => .ok .Stopped
    | .statError => .error ()
    | .state s =>
      match s with
      | .Zombie | .Dead => .ok .Stopped
      | _ =>
        match current with
        | .Creating | .Created | .Paused => .ok current
        | _ => .ok .Running
  | none => .ok .Stopped

end ContainerState

/-- C10: with a recorded pid whose stat state is readable, `Zombie`/`Dead`
map to `Stopped`; any other state preserves `Creating`/`Created`/`Paused` and
otherwise yields `Running`; a missing pid or an unreadable `/proc/<pid>`
entry yields `Stopped`. -/
theorem C10_refresh_status (current : ContainerState.ContainerStatus) (p : Nat)
    (proc : Nat → ContainerState.ProcInfo) (s : ContainerState.ProcState)
    (hs : proc p = .state s) :
    ((s = .Zombie ∨ s = .Dead) →
      ContainerState.refresh_status current (some p) proc = .ok .Stopped) ∧
    (¬ (s = .Zombie ∨ s = .Dead) →
      ((current = .Creating ∨ current = .Created ∨ current = .Paused) →
        ContainerState.refresh_status current (some p) proc = .ok current) ∧
      (¬ (current = .Creating ∨ current = .Created ∨ current = .Paused) →
        ContainerState.refresh_status current (some p) proc = .ok .Running)) ∧
    ContainerState.refresh_status current none proc = .ok .Stopped ∧
    (∀ q, proc q = .noProcess →
      ContainerState.refresh_status current (some q) proc = .ok .Stopped) := by
  refine ⟨?_, ?_, rfl, ?_⟩
  · intro h
    rcases h with h | h <;> subst h <;>
      simp [ContainerState.refresh_status, hs]
  · intro h
    constructor
    · intro hc
      cases s <;> simp_all [ContainerState.refresh_status] <;>
        rcases hc with hc | hc | hc <;> subst hc <;> rfl
    · intro hc
      cases s <;> cases current <;> simp_all [ContainerState.refresh_status]
  · intro q hq
    simp [ContainerState.refresh_status, hq]

/-- C10 witness: the statement at a sleeping init process of a running
container. -/
theorem C10_refresh_status_witness :
    (((ContainerState.ProcState.Sleeping = .Zombie ∨
        ContainerState.ProcState.Sleeping = .Dead) →
      ContainerState.refresh_status .Running (some 7)
        (fun _ => .state .Sleeping) = .ok .Stopped) ∧
    (¬ (ContainerState.ProcState.Sleeping = .Zombie ∨
        ContainerState.ProcState.Sleeping = .Dead) →
      ((ContainerState.ContainerStatus.Running = .Creating ∨
        ContainerState.ContainerStatus.Running = .Created ∨
        ContainerState.ContainerStatus.Running = .Paused) →
        ContainerState.refresh_status .Running (some 7)
          (fun _ => .state .Sleeping) = .ok .Running) ∧
      (¬ (ContainerState.ContainerStatus.Running = .Creating ∨
          ContainerState.ContainerStatus.Running = .Created ∨
          ContainerState.ContainerStatus.Running = .Paused) →
        ContainerState.refresh_status .Running (some 7)
          (fun _ => .state .Sleeping) = .ok .Running)) ∧
    ContainerState.refresh_status .Running none
      (fun _ => .state .Sleeping) = .ok .Stopped ∧
    (∀ q, (fun _ => ContainerState.ProcInfo.state .Sleeping) q = .noProcess →
      ContainerState.refresh_status .Running (some q)
        (fun _ => .state .Sleeping) = .ok .Stopped)) :=
  C10_refresh_status .Running 7 (fun _ => .state .Sleeping) .Sleeping rfl

namespace Seccomp

inductive LinuxSeccompAction where
  | ScmpActKill
  | ScmpActTrap
  | ScmpActErrno
  | ScmpActTrace
  | ScmpActAllow
  | ScmpActKillProcess
  | ScmpActNotify
  | ScmpActLog
  deriving DecidableEq, Repr

inductive LinuxSeccompOperator where
  | ScmpCmpNe
  | ScmpCmpLt
  | ScmpCmpLe
  | ScmpCmpEq
  | ScmpCmpGe
  | ScmpCmpGt
  | ScmpCmpMaskedEq
  deriving DecidableEq, Repr

inductive LinuxSeccompFilterFlag where
  | SeccompFilterFlagLog
  | SeccompFilterFlagTsync
  | SeccompFilterFlagSpecAllow
  deriving DecidableEq, Repr

/-- `oci_spec::runtime::LinuxSeccompArg` (`index: usize`, `value: u64`,
`value_two: Option<u64>`, `op`). -/
structure LinuxSeccompArg where
  index : Nat
  value : Nat
  value_two : Option Nat
  op : LinuxSeccompOperator
  deriving DecidableEq, Repr

/-- `oci_spec::runtime::LinuxSyscall` (the fields read by the installer). -/
structure LinuxSyscall where
  names : List String
  action : LinuxSeccompAction
  errno_ret : Option Nat
  args : Option (List LinuxSeccompArg)
  deriving DecidableEq, Repr

/-- `oci_spec::runtime::LinuxSeccomp` (the fields read by the installer;
architectures are irrelevant to the modelled effects beyond their count). -/
structure LinuxSeccomp where
  default_action : LinuxSeccompAction
  default_errno_ret : Option Nat
  flags : Option (List LinuxSeccompFilterFlag)
  architectures : Option (List Nat)
  syscalls : Option (List LinuxSyscall)
  deriving DecidableEq, Repr

inductive SeccompError where
  | TraceAction (errno : Int)
  | NotifyAsDefaultAction
  | NotifyWriteSyscall
  deriving DecidableEq, Repr

/-- `ScmpAction` values produced by `translate_action`. -/
inductive ScmpAction where
  | KillThread
  | Trap
  | Errno (e : Int)
  | Trace (e : Int)
  | Allow
  | KillProcess
  | Notify
  | Log
  deriving DecidableEq, Repr

/-- `translate_action` from `seccomp/mod.rs`: the errno (a `u32`, cast
`as i32`) defaults to `libc::EPERM = 1`; a `Trace` action needs the errno to
fit in an `i16`. -/
def translate_action (action : LinuxSeccompAction) (errno : Option Nat) :
    Except SeccompError ScmpAction :=
  let e : Int := match errno with
    | some n => wrapSigned 32 (n : Int)
    | none => 1
  match action with
  | .ScmpActKill => .ok .KillThread
  | .ScmpActTrap => .ok .Trap
  | .ScmpActErrno => .ok (.Errno e)
  | .ScmpActTrace =>
    if -32768 ≤ e ∧ e ≤ 32767 then .ok (.Trace e) else .error (.TraceAction e)
  | .ScmpActAllow => .ok .Allow
  | .ScmpActKillProcess => .ok .KillProcess
  | .ScmpActNotify => .ok .Notify
  | .ScmpActLog => .ok .Log

/-- `check_seccomp` from `seccomp/mod.rs`. -/
def check_seccomp (s : LinuxSeccomp) : Except SeccompError Unit :=
  if s.default_action = .ScmpActNotify then .error .NotifyAsDefaultAction
  else
    match s.syscalls with
    | some syscalls =>
      if syscalls.any (fun sc =>
          sc.action == .ScmpActNotify && sc.names.contains "write") then
        .error .NotifyWriteSyscall
      else .ok ()
    | none => .ok ()

/-- `is_notify` from `seccomp/mod.rs`. -/
def is_notify (s : LinuxSeccomp) : Bool :=
  (s.syscalls.getD []).any (fun sc => sc.action == .ScmpActNotify)

/-- Observable calls into libseccomp made by `initialize_seccomp` (libseccomp
itself is an external collaborator, modelled as always succeeding). -/
inductive Effect where
  | newFilter
  | setFlag
  | addArch
  | setCtlNnp
  | addRule
  | load
  | getNotifyFd
  deriving DecidableEq, Repr

/-- The `add_rule`/`add_rule_conditional` calls of the syscall loop of
`initialize_seccomp`: a rule whose action equals the default is skipped;
unresolved names are skipped; with args, one conditional rule per arg. -/
def addRules (defaultAct : ScmpAction) (resolve : String → Option Nat) :
    List LinuxSyscall → Except SeccompError (List Effect)
  | [] => .ok []
  | sc :: rest => do
    let act ← translate_action sc.action sc.errno_ret
    let eff : List Effect :=
      if act = defaultAct then []
      else
        sc.names.flatMap (fun n =>
          match resolve n with
          | none => []
          | some _ =>
            match sc.args with
            | some args => args.map (fun _ => Effect.addRule)
            | none => [Effect.addRule])
    let more ← addRules defaultAct resolve rest
    .ok (eff ++ more)

/-- `initialize_seccomp` from `seccomp/mod.rs`: result (with `some ()`
standing for a returned notify fd) together with the trace of libseccomp
calls; on an error the trace holds the calls made before it. -/
def initialize_seccomp (s : LinuxSeccomp) (resolve : String → Option Nat) :
    Except SeccompError (Option Unit) × List Effect :=
  match check_seccomp s with
  | .error e => (.error e, [])
  | .ok _ =>
    match translate_action s.default_action s.default_errno_ret with
    | .error e => (.error e, [])
    | .ok defaultAct =>
      let t :=
        [Effect.newFilter] ++
        (s.flags.getD []).map (fun _ => Effect.setFlag) ++
        (s.architectures.getD []).map (fun _ => Effect.addArch) ++
        [Effect.setCtlNnp]
      match addRules defaultAct resolve (s.syscalls.getD []) with
      | .error e => (.error e, t)
      | .ok ruleEffs =>
        let t := t ++ ruleEffs ++ [Effect.load]
        if is_notify s then (.ok (some ()), t ++ [Effect.getNotifyFd])
        else (.ok none, t)

end Seccomp

/-- C9 counterexample: when the default action is notify and a notify rule
also names `write`, the installer fails with `NotifyAsDefaultAction`, not
`NotifyWriteSyscall` as the claim's second clause demands. -/
theorem C9_counterexample :
    Seccomp.initialize_seccomp
        ⟨.ScmpActNotify, none, none, none,
          some [⟨["write"], .ScmpActNotify, none, none⟩]⟩ (fun _ => none) =
      (.error .NotifyAsDefaultAction, []) ∧
    Seccomp.SeccompError.NotifyAsDefaultAction ≠ .NotifyWriteSyscall := by
  exact ⟨rfl, by decide⟩

/-- C9 (amended): the installer fails with `NotifyAsDefaultAction` whenever
the default action is `SCMP_ACT_NOTIFY`, and with `NotifyWriteSyscall`
whenever the default action is not notify and some syscall rule with action
notify names `write`; in both cases the libseccomp trace is empty, so no
filter is loaded. -/
theorem C9_seccomp_notify_checks (s : Seccomp.LinuxSeccomp)
    (resolve : String → Option Nat) :
    (s.default_action = .ScmpActNotify →
      Seccomp.initialize_seccomp s resolve = (.error .NotifyAsDefaultAction, [])) ∧
    (s.default_action ≠ .ScmpActNotify →
      ∀ l sc, s.syscalls = some l → sc ∈ l → sc.action = .ScmpActNotify →
        "write" ∈ sc.names →
        Seccomp.initialize_seccomp s resolve = (.error .NotifyWriteSyscall, [])) := by
  constructor
  · intro h
    unfold Seccomp.initialize_seccomp Seccomp.check_seccomp
    rw [if_pos h]
  · intro h l sc hl hmem hact hw
    unfold Seccomp.initialize_seccomp Seccomp.check_seccomp
    rw [if_neg h, hl]
    dsimp only
    have hany : l.any (fun sc =>
        sc.action == Seccomp.LinuxSeccompAction.ScmpActNotify &&
          sc.names.contains "write") = true := by
      rw [List.any_eq_true]
      refine ⟨sc, hmem, ?_⟩
      rw [Bool.and_eq_true]
      constructor
      · exact beq_iff_eq.mpr hact
      · exact List.elem_eq_true_of_mem hw
    rw [if_pos hany]

/-- C9 witness: the amended statement at a notify-on-write configuration with
an allow default. -/
theorem C9_seccomp_notify_checks_witness :
    Seccomp.initialize_seccomp
        ⟨.ScmpActAllow, none, none, none,
          some [⟨["write"], .ScmpActNotify, none, none⟩]⟩ (fun _ => none) =
      (.error .NotifyWriteSyscall, []) :=
  (C9_seccomp_notify_checks
      ⟨.ScmpActAllow, none, none, none,
        some [⟨["write"], .ScmpActNotify, none, none⟩]⟩ (fun _ => none)).2
    (by decide) [⟨["write"], .ScmpActNotify, none, none⟩]
    ⟨["write"], .ScmpActNotify, none, none⟩ rfl (by decide) rfl (by decide)

/-- Model of Rust's `str::trim` (drop leading and trailing whitespace),
computed on the character list so that it reduces in the kernel. -/
def trimStr (s : String) : String :=
  ⟨((s.data.dropWhile Char.isWhitespace).reverse.dropWhile
      Char.isWhitespace).reverse⟩

namespace Freezer

inductive V1FreezerControllerError where
  | UnexpectedState (state : String)
  | UnableToFreeze
  deriving DecidableEq, Repr

/-- The outcome of the `Frozen` branch of `Freezer::apply`: the result, the
number of loop iterations executed, and the sequence of values written to
`freezer.state`. -/
structure LoopOut where
  result : Except V1FreezerControllerError Unit
  iterations : Nat
  writes : List String

/-- The `freezer.state` writes performed during loop iteration `i` (0-based):
`THAWED` first when `i % 50 == 49`, then `FROZEN` unconditionally. -/
def perIterWrites (i : Nat) : List String :=
  (if i % 50 = 49 then ["THAWED"] else []) ++ ["FROZEN"]

/-- The retry loop of `Freezer::apply` for target `Frozen` in
`v1/freezer.rs`, with the successive reads of `freezer.state` given by
`reads` (iteration `i` reads `reads i`); `fuel` is the remaining iteration
count (initially 1000), `i` the current index and `acc` the writes so far.
Sleeps are not modelled. -/
def freezeGo (reads : Nat → String) : Nat → Nat → List String → LoopOut
  | 0, i, acc => ⟨.error .UnableToFreeze, i, acc⟩
  | fuel + 1, i, acc =>
    let acc2 := acc ++ perIterWrites i
    if trimStr (reads i) = "FREEZING" then freezeGo reads fuel (i + 1) acc2
    else if trimStr (reads i) = "FROZEN" then ⟨.ok (), i + 1, acc2⟩
    else ⟨.error (.UnexpectedState (reads i)), i + 1, acc2⟩

/-- The full `Frozen` branch of `Freezer::apply`: run the loop; on any error
(including exhaustion) a best-effort `THAWED` write is appended before the
error is returned. -/
def applyFrozen (reads : Nat → String) : LoopOut :=
  let out := freezeGo reads 1000 0 []
  match out.result with
  | .ok _ => out
  | .error e => ⟨.error e, out.iterations, out.writes ++ ["THAWED"]⟩

/-- The writes of the first `n` loop iterations. -/
def loopWrites (n : Nat) : List String :=
  (List.range n).flatMap perIterWrites

/-- Reads of the claim's concrete scenario: `FREEZING, FREEZING, FROZEN`. -/
def exampleReads (i : Nat) : String :=
  if i < 2 then "FREEZING" else "FROZEN"

/-- The writes of `m` loop iterations starting at iteration `i`. -/
def loopWritesFrom (i m : Nat) : List String :=
  (List.range m).flatMap (fun j => perIterWrites (i + j))

theorem loopWritesFrom_succ (i m : Nat) :
    loopWritesFrom i (m + 1) = perIterWrites i ++ loopWritesFrom (i + 1) m := by
  unfold loopWritesFrom
  rw [List.range_succ_eq_map, List.flatMap_cons, List.flatMap_map]
  have hfun : (fun a : Nat => perIterWrites (i + a.succ)) =
      (fun j => perIterWrites (i + 1 + j)) := by
    funext j
    congr 1
    omega
  rw [hfun, Nat.add_zero i]

theorem freezeGo_skip (reads : Nat → String) (m : Nat) :
    ∀ fuel i acc, m ≤ fuel →
    (∀ j, j < m → trimStr (reads (i + j)) = "FREEZING") →
    freezeGo reads fuel i acc =
      freezeGo reads (fuel - m) (i + m) (acc ++ loopWritesFrom i m) := by
  induction m with
  | zero =>
    intro fuel i acc hm hfr
    simp [loopWritesFrom]
  | succ m ih =>
    intro fuel i acc hm hfr
    obtain ⟨fuel', rfl⟩ : ∃ f, fuel = f + 1 := ⟨fuel - 1, by omega⟩
    rw [freezeGo]
    rw [if_pos (by simpa using hfr 0 (by omega))]
    rw [ih fuel' (i + 1) _ (by omega)
      (fun j hj => by
        have h := hfr (j + 1) (by omega)
        rwa [show i + (j + 1) = i + 1 + j by omega] at h)]
    have harith1 : fuel' + 1 - (m + 1) = fuel' - m := by omega
    have harith2 : i + 1 + m = i + (m + 1) := by omega
    rw [harith1, harith2, loopWritesFrom_succ, List.append_assoc]

end Freezer

theorem Freezer.loopWritesFrom_zero_eq (n : Nat) :
    Freezer.loopWritesFrom 0 n = Freezer.loopWrites n := by
  unfold Freezer.loopWritesFrom Freezer.loopWrites
  simp

theorem Freezer.loopWrites_succ (n : Nat) :
    Freezer.loopWrites (n + 1) = Freezer.loopWrites n ++ Freezer.perIterWrites n := by
  unfold Freezer.loopWrites
  rw [List.range_succ, List.flatMap_append]
  simp

theorem Freezer.freezeGo_iterations_le (reads : Nat → String) :
    ∀ fuel i acc, (Freezer.freezeGo reads fuel i acc).iterations ≤ i + fuel := by
  intro fuel
  induction fuel with
  | zero =>
    intro i acc
    simp [Freezer.freezeGo]
  | succ f ih =>
    intro i acc
    rw [Freezer.freezeGo]
    by_cases h1 : trimStr (reads i) = "FREEZING"
    · rw [if_pos h1]
      have := ih (i + 1) (acc ++ Freezer.perIterWrites i)
      omega
    · rw [if_neg h1]
      by_cases h2 : trimStr (reads i) = "FROZEN"
      · rw [if_pos h2]
        show i + 1 ≤ i + (f + 1)
        omega
      · rw [if_neg h2]
        show i + 1 ≤ i + (f + 1)
        omega

/-- C4: the `Frozen` retry loop terminates within 1000 iterations; it
succeeds at the first iteration whose trimmed read is `FROZEN`, continues on
`FREEZING`, fails with `UnexpectedState` on anything else; `THAWED` is
written inside the loop exactly at the (1-based) 50th, 100th, … iterations;
on an error or on exhaustion a final best-effort `THAWED` write is appended.
In particular reads `FREEZING, FREEZING, FROZEN` succeed at iteration 3 with
no `THAWED` writes (witness). -/
theorem C4_freezer_frozen (reads : Nat → String) (k : Nat) (hk : k < 1000)
    (hfr : ∀ j, j < k → trimStr (reads j) = "FREEZING") :
    (trimStr (reads k) = "FROZEN" →
      Freezer.applyFrozen reads = ⟨.ok (), k + 1, Freezer.loopWrites (k + 1)⟩) ∧
    (trimStr (reads k) ≠ "FROZEN" → trimStr (reads k) ≠ "FREEZING" →
      Freezer.applyFrozen reads =
        ⟨.error (.UnexpectedState (reads k)), k + 1,
          Freezer.loopWrites (k + 1) ++ ["THAWED"]⟩) ∧
    ((∀ j, j < 1000 → trimStr (reads j) = "FREEZING") →
      Freezer.applyFrozen reads =
        ⟨.error .UnableToFreeze, 1000, Freezer.loopWrites 1000 ++ ["THAWED"]⟩) ∧
    (∀ i, "THAWED" ∈ Freezer.perIterWrites i ↔ i % 50 = 49) ∧
    (("THAWED" ∈ Freezer.loopWrites 1000) ↔ ∃ i, i < 1000 ∧ i % 50 = 49) ∧
    (Freezer.applyFrozen reads).iterations ≤ 1000 := by
  have hskip := Freezer.freezeGo_skip reads k 1000 0 [] (by omega)
    (fun j hj => by simpa using hfr j hj)
  rw [List.nil_append, Nat.zero_add, Freezer.loopWritesFrom_zero_eq] at hskip
  have hthawed : ∀ i : Nat, ("THAWED" ∈ Freezer.perIterWrites i ↔ i % 50 = 49) := by
    intro i
    unfold Freezer.perIterWrites
    by_cases h : i % 50 = 49
    · simp [h]
    · simp [h]
  refine ⟨?_, ?_, ?_, hthawed, ?_, ?_⟩
  · intro hfz
    have hrun : Freezer.freezeGo reads 1000 0 [] =
        ⟨.ok (), k + 1, Freezer.loopWrites (k + 1)⟩ := by
      rw [hskip]
      obtain ⟨r, hr⟩ : ∃ r, 1000 - k = r + 1 := ⟨999 - k, by omega⟩
      rw [hr, Freezer.freezeGo]
      rw [if_neg (by rw [hfz]; decide), if_pos hfz]
      exact congrArg (Freezer.LoopOut.mk (.ok ()) (k + 1))
        (Freezer.loopWrites_succ k).symm
    unfold Freezer.applyFrozen
    rw [hrun]
  · intro hfz1 hfz2
    have hrun : Freezer.freezeGo reads 1000 0 [] =
        ⟨.error (.UnexpectedState (reads k)), k + 1, Freezer.loopWrites (k + 1)⟩ := by
      rw [hskip]
      obtain ⟨r, hr⟩ : ∃ r, 1000 - k = r + 1 := ⟨999 - k, by omega⟩
      rw [hr, Freezer.freezeGo]
      rw [if_neg hfz2, if_neg hfz1]
      exact congrArg (Freezer.LoopOut.mk (.error (.UnexpectedState (reads k))) (k + 1))
        (Freezer.loopWrites_succ k).symm
    unfold Freezer.applyFrozen
    rw [hrun]
  · intro hall
    have hskip2 := Freezer.freezeGo_skip reads 1000 1000 0 [] (by omega)
      (fun j hj => by simpa using hall j hj)
    rw [List.nil_append, Nat.zero_add, Freezer.loopWritesFrom_zero_eq,
      Nat.sub_self] at hskip2
    have hrun : Freezer.freezeGo reads 1000 0 [] =
        ⟨.error .UnableToFreeze, 1000, Freezer.loopWrites 1000⟩ := by
      rw [hskip2]
      rfl
    unfold Freezer.applyFrozen
    rw [hrun]
  · unfold Freezer.loopWrites
    rw [List.mem_flatMap]
    constructor
    · rintro ⟨i, hi, hmem⟩
      exact ⟨i, List.mem_range.mp hi, (hthawed i).mp hmem⟩
    · rintro ⟨i, hi, hmod⟩
      exact ⟨i, List.mem_range.mpr hi, (hthawed i).mpr hmod⟩
  · have hbound := Freezer.freezeGo_iterations_le reads 1000 0 []
    rcases hgo : Freezer.freezeGo reads 1000 0 [] with ⟨res, iters, w⟩
    rw [hgo] at hbound
    unfold Freezer.applyFrozen
    rw [hgo]
    cases res with
    | ok _ =>
      simpa using hbound
    | error e =>
      simpa using hbound

/-- C4 witness: reads `FREEZING, FREEZING, FROZEN` give success on iteration
3 with writes `FROZEN, FROZEN, FROZEN` and no `THAWED` write. -/
theorem C4_freezer_frozen_witness :
    Freezer.applyFrozen Freezer.exampleReads =
      ⟨.ok (), 3, ["FROZEN", "FROZEN", "FROZEN"]⟩ ∧
    "THAWED" ∉ ["FROZEN", "FROZEN", "FROZEN"] := by
  have h := (C4_freezer_frozen Freezer.exampleReads 2 (by norm_num)
    (fun j hj => by
      interval_cases j <;> decide)).1 (by decide)
  refine ⟨?_, by decide⟩
  rw [h]
  rfl

namespace MountOpts

/-- `linux::MountAttr` (`mount_setattr(2)` argument). -/
structure MountAttr where
  attr_set : Nat
  attr_clr : Nat
  propagation : Nat
  userns_fd : Nat
  deriving DecidableEq, Repr

/-- `MountOptionConfig` from `rootfs/utils.rs` (`data` is the joined
`data=` fragments). -/
structure MountOptionConfig where
  flags : Nat
  data : String
  rec_attr : Option MountAttr
  deriving DecidableEq, Repr

inductive MountError where
  | UnsupportedMountOption (opt : String)
  deriving DecidableEq, Repr

/-- `MOUNT_ATTR__ATIME` from `linux/mount.h`. -/
def MOUNT_ATTR_ATIME_MASK : Nat := 0x70

/-- Modelled from the spec: `MountRecursive::from_str` lives in
`syscall/linux.rs`, which is not part of the sources; the spec lists the
recursive-attribute family `rdonly, nosuid, nodev, noexec, atime, relatime,
noatime, strictatime, nodiratime, nosymfollow`, each as an `r`-prefixed
token with a set and a clear direction, mapping to `MOUNT_ATTR_*` bits. -/
def mount_recursive_from_str (s : String) : Option (Bool × Nat) :=
  match s with
  | "rro" => some (false, 0x1)
  | "rrw" => some (true, 0x1)
  | "rnosuid" => some (false, 0x2)
  | "rsuid" => some (true, 0x2)
  | "rnodev" => some (false, 0x4)
  | "rdev" => some (true, 0x4)
  | "rnoexec" => some (false, 0x8)
  | "rexec" => some (true, 0x8)
  | "rnodiratime" => some (false, 0x80)
  | "rdiratime" => some (true, 0x80)
  | "rrelatime" => some (false, 0x0)
  | "rnorelatime" => some (true, 0x0)
  | "rnoatime" => some (false, 0x10)
  | "ratime" => some (true, 0x10)
  | "rstrictatime" => some (false, 0x20)
  | "rnostrictatime" => some (true, 0x20)
  | "rnosymfollow" => some (false, 0x200000)
  | "rsymfollow" => some (true, 0x200000)
  | _ => none

/-- The `MsFlags` table of `parse_mount` in `rootfs/utils.rs`: each token
maps to `(is_clear, flag)`; `MS_*` constants from `linux/mount.h`. -/
def msFlagToken (s : String) : Option (Bool × Nat) :=
  match s with
  | "defaults" => some (false, 0)
  | "ro" => some (false, 1)
  | "rw" => some (true, 1)
  | "suid" => some (true, 2)
  | "nosuid" => some (false, 2)
  | "dev" => some (true, 4)
  | "nodev" => some (false, 4)
  | "exec" => some (true, 8)
  | "noexec" => some (false, 8)
  | "sync" => some (false, 16)
  | "async" => some (true, 16)
  | "dirsync" => some (false, 128)
  | "remount" => some (false, 32)
  | "mand" => some (false, 64)
  | "nomand" => some (true, 64)
  | "atime" => some (true, 1024)
  | "noatime" => some (false, 1024)
  | "diratime" => some (true, 2048)
  | "nodiratime" => some (false, 2048)
  | "bind" => some (false, 4096)
  | "rbind" => some (false, 4096 ||| 16384)
  | "unbindable" => some (false, 131072)
  | "runbindable" => some (false, 131072 ||| 16384)
  | "private" => some (true, 262144)
  | "rprivate" => some (true, 262144 ||| 16384)
  | "shared" => some (true, 1048576)
  | "rshared" => some (true, 1048576 ||| 16384)
  | "slave" => some (true, 524288)
  | "rslave" => some (true, 524288 ||| 16384)
  | "relatime" => some (true, 2097152)
  | "norelatime" => some (true, 2097152)
  | "strictatime" => some (true, 16777216)
  | "nostrictatime" => some (true, 16777216)
  | _ => none

/-- The update performed on the accumulated `MountAttr` by one
recursive-attribute token (the `mount_attr` block of `parse_mount`). -/
def attrStep (attr : Option MountAttr) (is_clear : Bool) (flag : Nat) :
    Option MountAttr :=
  let a := attr.getD ⟨0, 0, 0, 0⟩
  if is_clear then some { a with attr_clr := a.attr_clr ||| flag }
  else
    let aset := { a with attr_set := a.attr_set ||| flag }
    if Nat.land flag MOUNT_ATTR_ATIME_MASK = flag then
      some { aset with attr_clr := aset.attr_clr ||| MOUNT_ATTR_ATIME_MASK }
    else some aset

/-- The option loop of `parse_mount` from `rootfs/utils.rs`: recursive
attribute tokens update `mount_attr`, table tokens set or clear `MsFlags`
bits (`flags |= flag` / `flags &= !flag`), `idmap`/`ridmap` are rejected,
anything else becomes a `data` fragment. -/
def parseMountGo (flags : Nat) (data : List String) (attr : Option MountAttr) :
    List String → Except MountError (Nat × List String × Option MountAttr)
  | [] => .ok (flags, data, attr)
  | opt :: rest =>
    match mount_recursive_from_str opt with
    | some (is_clear, flag) =>
      parseMountGo flags data (attrStep attr is_clear flag) rest
    | none =>
      match msFlagToken opt with
      | some (is_clear, flag) =>
        if is_clear then parseMountGo (Nat.ldiff flags flag) data attr rest
        else parseMountGo (flags ||| flag) data attr rest
      | none =>
        if opt = "idmap" ∨ opt = "ridmap" then
          .error (.UnsupportedMountOption opt)
        else parseMountGo flags (data ++ [opt]) attr rest

/-- `parse_mount` from `rootfs/utils.rs` on the option list of a mount. -/
def parse_mount (options : List String) : Except MountError MountOptionConfig :=
  (parseMountGo 0 [] none options).map
    (fun r => ⟨r.1, String.intercalate "," r.2.1, r.2.2⟩)

/-- The flags-only projection of the option loop. -/
def flagsGo (flags : Nat) : List String → Except MountError Nat
  | [] => .ok flags
  | opt :: rest =>
    match mount_recursive_from_str opt with
    | some _ => flagsGo flags rest
    | none =>
      match msFlagToken opt with
      | some (is_clear, flag) =>
        if is_clear then flagsGo (Nat.ldiff flags flag) rest
        else flagsGo (flags ||| flag) rest
      | none =>
        if opt = "idmap" ∨ opt = "ridmap" then
          .error (.UnsupportedMountOption opt)
        else flagsGo flags rest

/-- The union of all flags cleared by some token of the list (the claim's
"cleared flags"). -/
def clearsOf : List String → Nat
  | [] => 0
  | opt :: rest =>
    match mount_recursive_from_str opt with
    | some _ => clearsOf rest
    | none =>
      match msFlagToken opt with
      | some (true, flag) => flag ||| clearsOf rest
      | _ => clearsOf rest

theorem parseMountGo_flags (opts : List String) :
    ∀ flags data attr,
      (parseMountGo flags data attr opts).map (fun r => r.1) = flagsGo flags opts := by
  induction opts with
  | nil => intro flags data attr; rfl
  | cons opt rest ih =>
    intro flags data attr
    rw [parseMountGo, flagsGo]
    cases hrec : mount_recursive_from_str opt with
    | some p =>
      obtain ⟨is_clear, flag⟩ := p
      exact ih _ _ _
    | none =>
      cases hms : msFlagToken opt with
      | some p =>
        obtain ⟨is_clear, flag⟩ := p
        cases is_clear with
        | true => simpa using ih _ _ _
        | false => simpa using ih _ _ _
      | none =>
        by_cases hid : opt = "idmap" ∨ opt = "ridmap"
        · rw [if_pos hid, if_pos hid]
          rfl
        · rw [if_neg hid, if_neg hid]
          exact ih _ _ _

theorem ldiff_lor_left (a b c : Nat) :
    Nat.ldiff (a ||| b) c = Nat.ldiff a c ||| Nat.ldiff b c := by
  apply Nat.eq_of_testBit_eq
  intro i
  simp [Nat.testBit_ldiff, Nat.testBit_lor, Bool.and_or_distrib_right]

theorem ldiff_ldiff (a b c : Nat) :
    Nat.ldiff (Nat.ldiff a b) c = Nat.ldiff a (b ||| c) := by
  apply Nat.eq_of_testBit_eq
  intro i
  simp [Nat.testBit_ldiff, Nat.testBit_lor, Bool.and_assoc]

theorem ldiff_zero_right (a : Nat) : Nat.ldiff a 0 = a := by
  apply Nat.eq_of_testBit_eq
  intro i
  simp [Nat.testBit_ldiff]

theorem ldiff_zero_left (a : Nat) : Nat.ldiff 0 a = 0 := by
  apply Nat.eq_of_testBit_eq
  intro i
  simp [Nat.testBit_ldiff]

theorem flagsGo_start (opts : List String) :
    ∀ f, flagsGo f opts =
      (flagsGo 0 opts).map (fun r0 => Nat.ldiff f (clearsOf opts) ||| r0) := by
  induction opts with
  | nil =>
    intro f
    simp [flagsGo, clearsOf, ldiff_zero_right, Except.map]
  | cons opt rest ih =>
    intro f
    rw [flagsGo, flagsGo, clearsOf]
    cases hrec : mount_recursive_from_str opt with
    | some p =>
      obtain ⟨is_clear, flag⟩ := p
      exact ih f
    | none =>
      cases hms : msFlagToken opt with
      | some p =>
        obtain ⟨is_clear, flag⟩ := p
        cases is_clear with
        | true =>
          simp only [if_true]
          rw [ih (Nat.ldiff f flag), ih (Nat.ldiff 0 flag), ldiff_zero_left]
          cases hres : flagsGo 0 rest with
          | error e => simp [Except.map]
          | ok v =>
            simp only [Except.map]
            rw [ldiff_ldiff, ldiff_zero_left, Nat.zero_or]
        | false =>
          simp only [if_false, Bool.false_eq_true]
          rw [ih (f ||| flag), ih (0 ||| flag), Nat.zero_or]
          cases hres : flagsGo 0 rest with
          | error e => simp [Except.map]
          | ok v =>
            simp only [Except.map]
            rw [ldiff_lor_left, Nat.lor_assoc]
      | none =>
        by_cases hid : opt = "idmap" ∨ opt = "ridmap"
        · rw [if_pos hid, if_pos hid]
          rfl
        · rw [if_neg hid, if_neg hid]
          exact ih f

end MountOpts

theorem MountOpts.flagsGo_append (l1 l2 : List String) :
    ∀ f, MountOpts.flagsGo f (l1 ++ l2) =
      match MountOpts.flagsGo f l1 with
      | .ok f1 => MountOpts.flagsGo f1 l2
      | .error e => .error e := by
  induction l1 with
  | nil => intro f; rfl
  | cons opt rest ih =>
    intro f
    rw [List.cons_append, MountOpts.flagsGo, MountOpts.flagsGo]
    cases hrec : MountOpts.mount_recursive_from_str opt with
    | some p =>
      obtain ⟨is_clear, flag⟩ := p
      exact ih f
    | none =>
      cases hms : MountOpts.msFlagToken opt with
      | some p =>
        obtain ⟨is_clear, flag⟩ := p
        cases is_clear with
        | true => exact ih _
        | false => exact ih _
      | none =>
        by_cases hid : opt = "idmap" ∨ opt = "ridmap"
        · rw [if_pos hid, if_pos hid]
        · rw [if_neg hid, if_neg hid]
          exact ih f

theorem MountOpts.parse_flags_ok (opts : List String)
    (c : MountOpts.MountOptionConfig) (h : MountOpts.parse_mount opts = .ok c) :
    MountOpts.flagsGo 0 opts = .ok c.flags := by
  have hm := MountOpts.parseMountGo_flags opts 0 [] none
  cases hp : MountOpts.parseMountGo 0 [] none opts with
  | error e =>
    rw [MountOpts.parse_mount, hp] at h
    exact absurd h (by simp [Except.map])
  | ok r =>
    rw [MountOpts.parse_mount, hp] at h
    simp only [Except.map] at h
    rw [hp] at hm
    simp only [Except.map] at hm
    rw [← hm]
    injection h with h
    rw [← h]

/-- C8 counterexample: with `opts1 = []` and `opts2 = [rw, ro]` the parsed
flags of the concatenation are `MS_RDONLY = 1` (the later `ro` re-sets the
bit `rw` cleared), while the claim's formula
`(flags(opts1) | flags(opts2)) minus cleared(opts2)` yields `0`. -/
theorem C8_counterexample :
    (MountOpts.parse_mount (([] : List String) ++ ["rw", "ro"])).map
      MountOpts.MountOptionConfig.flags = .ok 1 ∧
    (MountOpts.parse_mount ([] : List String)).map
      MountOpts.MountOptionConfig.flags = .ok 0 ∧
    (MountOpts.parse_mount ["rw", "ro"]).map
      MountOpts.MountOptionConfig.flags = .ok 1 ∧
    MountOpts.clearsOf ["rw", "ro"] = 1 ∧
    Nat.ldiff (0 ||| 1) 1 = 0 ∧ (1 : Nat) ≠ 0 := by
  have e1 : Nat.ldiff 0 1 ||| 1 = 1 := by
    rw [MountOpts.ldiff_zero_left, Nat.zero_or]
  refine ⟨?_, rfl, ?_, ?_, ?_, by norm_num⟩
  · rw [← e1]; rfl
  · rw [← e1]; rfl
  · show (1 : Nat) ||| 0 = 1
    exact Nat.or_zero 1
  · rw [Nat.zero_or]
    apply Nat.eq_of_testBit_eq
    intro i
    simp [Nat.testBit_ldiff]

/-- C8 (amended): for option lists whose parses all succeed, the flags of the
concatenation equal `(flags(opts1) minus every flag some token of opts2
clears) | flags(opts2)` — the cleared bits are removed from the inherited
flags only, since a later token of `opts2` may re-set a bit an earlier one
cleared. -/
theorem C8_mount_flags (opts1 opts2 : List String)
    (c12 c1 c2 : MountOpts.MountOptionConfig)
    (h12 : MountOpts.parse_mount (opts1 ++ opts2) = .ok c12)
    (h1 : MountOpts.parse_mount opts1 = .ok c1)
    (h2 : MountOpts.parse_mount opts2 = .ok c2) :
    c12.flags = Nat.ldiff c1.flags (MountOpts.clearsOf opts2) ||| c2.flags := by
  have hf12 := MountOpts.parse_flags_ok _ _ h12
  have hf1 := MountOpts.parse_flags_ok _ _ h1
  have hf2 := MountOpts.parse_flags_ok _ _ h2
  rw [MountOpts.flagsGo_append, hf1] at hf12
  dsimp only at hf12
  rw [MountOpts.flagsGo_start, hf2] at hf12
  simp only [Except.map] at hf12
  injection hf12 with hf12
  exact hf12.symm

/-- C8 witness: the amended identity at `opts1 = [ro, nosuid]`,
`opts2 = [rw, noexec]`. -/
theorem C8_mount_flags_witness :
    (MountOpts.MountOptionConfig.mk (Nat.ldiff (0 ||| 1 ||| 2) 1 ||| 8) "" none).flags =
      Nat.ldiff
        (MountOpts.MountOptionConfig.mk (0 ||| 1 ||| 2) "" none).flags
        (MountOpts.clearsOf ["rw", "noexec"]) |||
      (MountOpts.MountOptionConfig.mk (Nat.ldiff 0 1 ||| 8) "" none).flags :=
  C8_mount_flags ["ro", "nosuid"] ["rw", "noexec"]
    ⟨Nat.ldiff (0 ||| 1 ||| 2) 1 ||| 8, "", none⟩
    ⟨0 ||| 1 ||| 2, "", none⟩ ⟨Nat.ldiff 0 1 ||| 8, "", none⟩ rfl rfl rfl

namespace CpuMask

inductive BitmaskError where
  | InvalidIndex (index : String)
  | InvalidRange (range : String)
  deriving DecidableEq, Repr

/-- Rust `str::trim` on a character list. -/
def trimChars (l : List Char) : List Char :=
  ((l.dropWhile Char.isWhitespace).reverse.dropWhile Char.isWhitespace).reverse

/-- Rust `str::split(sep)` on a character list (always at least one piece). -/
def splitChar (sep : Char) : List Char → List (List Char)
  | [] => [[]]
  | c :: rest =>
    if c = sep then [] :: splitChar sep rest
    else
      match splitChar sep rest with
      | t :: ts => (c :: t) :: ts
      | [] => [[c]]

/-- Rust `str::split_terminator(sep)`: like `split` but a trailing empty
piece (from a trailing separator) is omitted, and the empty string has no
pieces. -/
def splitTerm (sep : Char) (l : List Char) : List (List Char) :=
  if l = [] then []
  else if l.getLast? = some sep then (splitChar sep l).dropLast
  else splitChar sep l

/-- Rust `str::parse::<usize>()`: an optional `+` sign, one or more ASCII
digits, value below `2 ^ 64` (64-bit usize). -/
def parseUsize (l : List Char) : Option Nat :=
  let l2 := match l with
    | '+' :: rest => rest
    | _ => l
  if l2 = [] then none
  else if l2.all Char.isDigit then
    let v := l2.foldl (fun acc c => acc * 10 + (c.toNat - 48)) 0
    if v < 2 ^ 64 then some v else none
  else none

/-- `FixedBitSet::grow` (fixedbitset 0.4): extend with `false` bits up to
length `n` (no-op when already that long). -/
def growB (bits : List Bool) (n : Nat) : List Bool :=
  bits ++ List.replicate (n - bits.length) false

/-- Or a predicate into the bits, index-wise, starting at index `s`. -/
def orBitsFrom (p : Nat → Bool) : Nat → List Bool → List Bool
  | _, [] => []
  | s, b :: rest => (b || p s) :: orBitsFrom p (s + 1) rest

/-- `FixedBitSet::set(i, true)`: panics (`none`) when `i` is out of
bounds. -/
def setBit (bits : List Bool) (i : Nat) : Option (List Bool) :=
  if i < bits.length then some (orBitsFrom (fun j => j == i) 0 bits) else none

/-- `FixedBitSet::set_range(a..b, true)`: panics (`none`) when the range end
exceeds the length. -/
def setRangeB (bits : List Bool) (a b : Nat) : Option (List Bool) :=
  if b ≤ bits.length then
    some (orBitsFrom (fun j => decide (a ≤ j) && decide (j < b)) 0 bits)
  else none

/-- One (trimmed, nonempty) token of `to_bitmask` from `systemd/cpuset.rs`:
a single index grows the bitset by one 8-bit chunk when needed and sets the
bit; a range `first-second` (extra `-` pieces ignored, as in the source's
`cpus[0]`/`cpus[1]`) requires `start ≤ end`, grows to `end + 1` and sets the
range.  `none` is a Rust panic (out-of-bounds set). -/
def processToken (bits : List Bool) (t : List Char) :
    Option (Except BitmaskError (List Bool)) :=
  match (splitChar '-' t).map trimChars with
  | [single] =>
    match parseUsize single with
    | none => some (.error (.InvalidIndex ⟨single⟩))
    | some idx =>
      let bits2 := if bits.length ≤ idx then growB bits (bits.length + 8) else bits
      match setBit bits2 idx with
      | none => none
      | some b2 => some (.ok b2)
  | first :: second :: _ =>
    match parseUsize first with
    | none => some (.error (.InvalidIndex ⟨first⟩))
    | some a =>
      match parseUsize second with
      | none => some (.error (.InvalidIndex ⟨second⟩))
      | some b =>
        if b < a then some (.error (.InvalidRange ⟨t⟩))
        else
          let bits2 := if bits.length ≤ b then growB bits (b + 1) else bits
          match setRangeB bits2 a (b + 1) with
          | none => none
          | some b2 => some (.ok b2)
  | [] => none

/-- The token loop of `to_bitmask`: empty tokens (after trimming) are
skipped. -/
def toBitmaskGo (bits : List Bool) :
    List (List Char) → Option (Except BitmaskError (List Bool))
  | [] => some (.ok bits)
  | tok :: rest =>
    if trimChars tok = [] then toBitmaskGo bits rest
    else
      match processToken bits (trimChars tok) with
      | none => none
      | some (.error e) => some (.error e)
      | some (.ok b2) => toBitmaskGo b2 rest

/-- Bit `i` of `n` (arithmetically, so it reduces in the kernel). -/
def nbit (n i : Nat) : Nat := n / 2 ^ i % 2

/-- The `u32` block of the bitset starting at bit `base` (bit `k` of the
block is bit `base + k` of the set), as in fixedbitset 0.4's `as_slice`. -/
def wordVal (bits : List Bool) (base : Nat) : Nat :=
  ((List.range 32).map
    (fun k => if bits.getD (base + k) false then 2 ^ k else 0)).sum

/-- Number of `u32` blocks backing a bitset of length `len`. -/
def numBlocks (len : Nat) : Nat := (len + 31) / 32

/-- `u32::to_be_bytes`. -/
def beBytes4 (w : Nat) : List Nat :=
  [w / 2 ^ 24 % 256, w / 2 ^ 16 % 256, w / 2 ^ 8 % 256, w % 256]

/-- `bitset.as_slice().iter().flat_map(to_be_bytes)`: the blocks in
low-to-high order, each as four big-endian bytes. -/
def asBytes (bits : List Bool) : List Nat :=
  (List.range (numBlocks bits.length)).flatMap
    (fun b => beBytes4 (wordVal bits (32 * b)))

/-- `to_bitmask` up to (but excluding) the byte rendering: the final
bitset. -/
def to_bitmask_bits (s : String) : Option (Except BitmaskError (List Bool)) :=
  toBitmaskGo (List.replicate 8 false) (splitTerm ',' s.data)

/-- `to_bitmask` from `systemd/cpuset.rs`: the big-endian block bytes with
leading zero bytes stripped (`skip_while(|b| *b == 0)`); `none` is a Rust
panic. -/
def to_bitmask (s : String) : Option (Except BitmaskError (List Nat)) :=
  match to_bitmask_bits s with
  | none => none
  | some (.error e) => some (.error e)
  | some (.ok bits) => some (.ok ((asBytes bits).dropWhile (fun b => b == 0)))

/-- The value of a big-endian byte sequence ("bit `i` counting from the end
of the sequence" is bit `i` of this value). -/
def bytesVal (bytes : List Nat) : Nat :=
  bytes.foldl (fun acc b => acc * 256 + b) 0

/-- Whether index `i` is denoted by a (trimmed, nonempty) token body. -/
def tokBody (i : Nat) (t : List Char) : Bool :=
  match (splitChar '-' t).map trimChars with
  | [single] => parseUsize single == some i
  | first :: second :: _ =>
    match parseUsize first, parseUsize second with
    | some a, some b => decide (a ≤ i) && decide (i ≤ b)
    | _, _ => false
  | [] => false

/-- Whether index `i` appears in a raw comma-token: as the single index, or
inside the `first-second` range. -/
def tokMentions (i : Nat) (tok : List Char) : Bool :=
  if trimChars tok = [] then false
  else tokBody i (trimChars tok)

/-- Whether index `i` appears in the input string (spec-side reading of "the
indices in the input"). -/
def mentions (s : String) (i : Nat) : Bool :=
  (splitTerm ',' s.data).any (tokMentions i)

end CpuMask

/-- C6: the claim says `to_bitmask` never panics on well-formed tokens, but a
single-index token whose index exceeds the bitset length by 8 or more is
grown by only one 8-bit chunk, and the subsequent `set` is out of bounds (a
Rust panic, modelled as `none`).  Input `16`: length 8 grows to 16, `set(16)`
panics.  The same index given as the range `16-16` works (the range branch
grows to `end + 1`). -/
theorem C6_single_index_panic :
    CpuMask.to_bitmask "16" = none ∧
    CpuMask.to_bitmask "16-16" = some (.ok [1, 0, 0]) :=
  ⟨rfl, rfl⟩

/-- C5 counterexample: input `0,33-33` (both indices mentioned, bitset grown
to 34 bits = two `u32` blocks) yields bytes `[1, 0, 0, 0, 2]` — the low
block's bytes come first, so reading bit positions from the end gives bits
`{1, 32}`, not the input's `{0, 33}`: bit 0 is claimed set (index 0 is in the
input) but is 0. -/
theorem C5_counterexample :
    CpuMask.to_bitmask "0,33-33" = some (.ok [1, 0, 0, 0, 2]) ∧
    CpuMask.mentions "0,33-33" 0 = true ∧
    CpuMask.nbit (CpuMask.bytesVal [1, 0, 0, 0, 2]) 0 = 0 :=
  ⟨rfl, rfl, rfl⟩

theorem CpuMask.orBitsFrom_length (p : Nat → Bool) :
    ∀ bits s, (CpuMask.orBitsFrom p s bits).length = bits.length := by
  intro bits
  induction bits with
  | nil => intro s; rfl
  | cons b rest ih =>
    intro s
    simp [CpuMask.orBitsFrom, ih]

theorem CpuMask.orBitsFrom_getD (p : Nat → Bool) :
    ∀ bits s i, (CpuMask.orBitsFrom p s bits).getD i false =
      (bits.getD i false || (decide (i < bits.length) && p (s + i))) := by
  intro bits
  induction bits with
  | nil =>
    intro s i
    simp [CpuMask.orBitsFrom]
  | cons b rest ih =>
    intro s i
    cases i with
    | zero =>
      simp [CpuMask.orBitsFrom]
    | succ j =>
      rw [CpuMask.orBitsFrom]
      show (CpuMask.orBitsFrom p (s + 1) rest).getD j false = _
      rw [ih (s + 1) j]
      have hadd : s + 1 + j = s + (j + 1) := by omega
      rw [hadd]
      simp only [List.length_cons, List.getD_cons_succ]
      congr 2
      simp [Nat.succ_lt_succ_iff]

theorem CpuMask.getD_ge_length (l : List Bool) (i : Nat) (h : l.length ≤ i) :
    l.getD i false = false := by
  rw [List.getD_eq_getElem?_getD, List.getElem?_eq_none (by omega)]
  rfl

theorem CpuMask.growB_getD (bits : List Bool) (n i : Nat) :
    (CpuMask.growB bits n).getD i false = bits.getD i false := by
  unfold CpuMask.growB
  by_cases h : i < bits.length
  · rw [List.getD_eq_getElem?_getD, List.getElem?_append_left h,
      ← List.getD_eq_getElem?_getD]
  · rw [List.getD_eq_getElem?_getD, List.getElem?_append_right (by omega)]
    rw [CpuMask.getD_ge_length bits i (by omega)]
    by_cases h2 : i - bits.length < n - bits.length
    · rw [List.getElem?_replicate_of_lt h2]
      rfl
    · rw [List.getElem?_eq_none (by simp; omega)]
      rfl

theorem CpuMask.growB_length (bits : List Bool) (n : Nat) :
    (CpuMask.growB bits n).length = max bits.length n := by
  simp [CpuMask.growB]
  omega

/-- The value with bit `k` set exactly when `f k`, for `k < n`. -/
def CpuMask.sumF (f : Nat → Bool) (n : Nat) : Nat :=
  ((List.range n).map (fun k => if f k then 2 ^ k else 0)).sum

theorem CpuMask.sumF_lt (f : Nat → Bool) : ∀ n, CpuMask.sumF f n < 2 ^ n := by
  intro n
  induction n with
  | zero => simp [CpuMask.sumF]
  | succ m ih =>
    unfold CpuMask.sumF at ih ⊢
    rw [List.range_succ, List.map_append, List.sum_append]
    have hone : (List.map (fun k => if f k then 2 ^ k else 0) [m]).sum =
        (if f m then 2 ^ m else 0) := by simp
    rw [hone]
    have h2 : (2 : Nat) ^ (m + 1) = 2 ^ m + 2 ^ m := by ring
    by_cases hf : f m
    · rw [if_pos hf]
      omega
    · rw [if_neg hf]
      omega

theorem CpuMask.nbit_sumF (f : Nat → Bool) :
    ∀ n i, CpuMask.nbit (CpuMask.sumF f n) i =
      if i < n then (if f i then 1 else 0) else 0 := by
  intro n
  induction n with
  | zero =>
    intro i
    simp [CpuMask.sumF, CpuMask.nbit]
  | succ m ih =>
    intro i
    have hstep : CpuMask.sumF f (m + 1) =
        CpuMask.sumF f m + (if f m then 2 ^ m else 0) := by
      unfold CpuMask.sumF
      rw [List.range_succ, List.map_append, List.sum_append]
      simp
    have hlt := CpuMask.sumF_lt f m
    rcases Nat.lt_trichotomy i m with hi | hi | hi
    · -- i < m: the added 2 ^ m bit does not change bit i
      rw [hstep]
      have hrw : ∀ c : Nat, c ≤ 1 →
          CpuMask.nbit (CpuMask.sumF f m + c * 2 ^ m) i =
            CpuMask.nbit (CpuMask.sumF f m) i := by
        intro c hc
        unfold CpuMask.nbit
        have hsplit : c * 2 ^ m = 2 ^ i * (c * 2 ^ (m - i - 1) * 2) := by
          have hpow : (2 : Nat) ^ m = 2 ^ i * (2 ^ (m - i - 1) * 2) := by
            rw [← Nat.pow_succ, ← Nat.pow_add]
            congr 1
            omega
          rw [hpow]
          ring
        rw [hsplit, Nat.add_mul_div_left _ _ (Nat.pos_pow_of_pos i (by norm_num)),
          Nat.add_mul_mod_self_right]
      have hcond : (if f m = true then 2 ^ m else 0) =
          (if f m = true then 1 else 0) * 2 ^ m := by
        by_cases hf : f m
        · rw [if_pos hf, if_pos hf, Nat.one_mul]
        · rw [if_neg hf, if_neg hf, Nat.zero_mul]
      have hc1 : (if f m = true then 1 else 0) ≤ 1 := by
        by_cases hf : f m
        · rw [if_pos hf]
        · rw [if_neg hf]
          norm_num
      rw [hcond, hrw _ hc1, ih i, if_pos hi, if_pos (show i < m + 1 by omega)]
    · -- i = m: bit i is exactly the added bit
      subst hi
      rw [hstep]
      unfold CpuMask.nbit
      by_cases hf : f i
      · simp only [hf, if_true, if_pos (Nat.lt_succ_self i)]
        rw [show CpuMask.sumF f i + 2 ^ i = CpuMask.sumF f i + 2 ^ i * 1 by ring,
          Nat.add_mul_div_left _ _ (Nat.pos_pow_of_pos i (by norm_num)),
          Nat.div_eq_of_lt hlt]
      · simp only [hf, if_false, Bool.false_eq_true, if_pos (Nat.lt_succ_self i)]
        rw [Nat.add_zero, Nat.div_eq_of_lt hlt]
    · -- i > m: the whole sum is below 2 ^ i
      rw [hstep]
      unfold CpuMask.nbit
      have hbound : CpuMask.sumF f m + (if f m then 2 ^ m else 0) < 2 ^ i := by
        have h1 : (2 : Nat) ^ (m + 1) ≤ 2 ^ i := Nat.pow_le_pow_right (by norm_num) (by omega)
        have h2 : (2 : Nat) ^ (m + 1) = 2 ^ m + 2 ^ m := by ring
        by_cases hf : f m
        · rw [if_pos hf]
          omega
        · rw [if_neg hf]
          omega
      rw [Nat.div_eq_of_lt hbound]
      rw [if_neg (show ¬ i < m + 1 by omega)]

theorem CpuMask.bytesVal_beBytes4 (w : Nat) (h : w < 2 ^ 32) :
    CpuMask.bytesVal (CpuMask.beBytes4 w) = w := by
  unfold CpuMask.bytesVal CpuMask.beBytes4
  simp only [List.foldl]
  omega

theorem CpuMask.bytesVal_dropWhile_zero :
    ∀ l : List Nat, CpuMask.bytesVal (l.dropWhile (fun b => b == 0)) =
      CpuMask.bytesVal l := by
  intro l
  induction l with
  | nil => rfl
  | cons b rest ih =>
    by_cases hb : b = 0
    · subst hb
      rw [List.dropWhile_cons_of_pos (by simp)]
      rw [ih]
      rfl
    · rw [List.dropWhile_cons_of_neg (by simp [hb])]

theorem CpuMask.head_dropWhile_ne {α : Type} (p : α → Bool) :
    ∀ l : List α, ∀ b, (l.dropWhile p).head? = some b → p b = false := by
  intro l
  induction l with
  | nil => intro b h; simp at h
  | cons a rest ih =>
    intro b h
    by_cases ha : p a
    · rw [List.dropWhile_cons_of_pos ha] at h
      exact ih b h
    · rw [List.dropWhile_cons_of_neg ha] at h
      simp at h
      rw [← h]
      simp [Bool.not_eq_true] at ha
      exact ha

theorem CpuMask.nbit_high (w i : Nat) (hw : w < 2 ^ 32) (hi : 32 ≤ i) :
    CpuMask.nbit w i = 0 := by
  unfold CpuMask.nbit
  rw [Nat.div_eq_of_lt (lt_of_lt_of_le hw (Nat.pow_le_pow_right (by norm_num) hi))]

theorem CpuMask.beqNat_comm (a b : Nat) : (a == b) = (b == a) := by
  by_cases h : a = b
  · subst h; rfl
  · have h1 : (a == b) = false := by
      simp only [beq_eq_false_iff_ne, ne_eq]
      exact h
    have h2 : (b == a) = false := by
      simp only [beq_eq_false_iff_ne, ne_eq]
      exact fun hh => h hh.symm
    rw [h1, h2]

theorem CpuMask.processToken_ok (bits : List Bool) (t : List Char)
    (b2 : List Bool) (h : CpuMask.processToken bits t = some (.ok b2)) :
    bits.length ≤ b2.length ∧
    (∀ i, b2.getD i false = (bits.getD i false || CpuMask.tokBody i t)) ∧
    (∀ first second rest2,
      (CpuMask.splitChar '-' t).map CpuMask.trimChars = first :: second :: rest2 →
      ∀ a b, CpuMask.parseUsize first = some a →
        CpuMask.parseUsize second = some b → a ≤ b) := by
  rw [CpuMask.processToken] at h
  cases hsp : (CpuMask.splitChar '-' t).map CpuMask.trimChars with
  | nil =>
    rw [hsp] at h
    exact absurd h (by simp)
  | cons first tail =>
    cases tail with
    | nil =>
      -- single-index branch
      rw [hsp] at h
      dsimp only at h
      cases hparse : CpuMask.parseUsize first with
      | none =>
        rw [hparse] at h
        exact absurd h (by simp)
      | some idx =>
        rw [hparse] at h
        dsimp only at h
        cases hset : CpuMask.setBit
            (if bits.length ≤ idx then CpuMask.growB bits (bits.length + 8) else bits)
            idx with
        | none =>
          rw [hset] at h
          exact absurd h (by simp)
        | some bset =>
          rw [hset] at h
          have hb2 : bset = b2 := by
            simp only [Option.some.injEq, Except.ok.injEq] at h
            exact h
          subst hb2
          rw [CpuMask.setBit] at hset
          set bits2 := if bits.length ≤ idx then
            CpuMask.growB bits (bits.length + 8) else bits with hbits2
          by_cases hin : idx < bits2.length
          · rw [if_pos hin] at hset
            have hbset : bset = CpuMask.orBitsFrom (fun j => j == idx) 0 bits2 := by
              simp only [Option.some.injEq] at hset
              exact hset.symm
            have hlen2 : bits.length ≤ bits2.length := by
              rw [hbits2]
              by_cases hg : bits.length ≤ idx
              · rw [if_pos hg, CpuMask.growB_length]
                omega
              · rw [if_neg hg]
            have hgetD2 : ∀ i, bits2.getD i false = bits.getD i false := by
              intro i
              rw [hbits2]
              by_cases hg : bits.length ≤ idx
              · rw [if_pos hg, CpuMask.growB_getD]
              · rw [if_neg hg]
            refine ⟨?_, ?_, ?_⟩
            · rw [hbset, CpuMask.orBitsFrom_length]
              exact hlen2
            · intro i
              rw [hbset, CpuMask.orBitsFrom_getD]
              rw [hgetD2 i]
              congr 1
              rw [CpuMask.tokBody, hsp]
              dsimp only
              rw [hparse]
              show (decide (i < bits2.length) && (0 + i == idx)) = (some idx == some i)
              rw [Nat.zero_add]
              have hsome : (some idx == some i) = (idx == i) := rfl
              rw [hsome, CpuMask.beqNat_comm idx i]
              by_cases hii : i = idx
              · subst hii
                rw [decide_eq_true hin]
                rw [Bool.true_and]
              · have hfalse : (i == idx) = false := by simp [hii]
                rw [hfalse, Bool.and_false]
            · intro f2 s2 r2 heq
              exact absurd heq (by simp)
          · rw [if_neg hin] at hset
            exact absurd hset (by simp)
    | cons second rest2 =>
      -- range branch
      rw [hsp] at h
      dsimp only at h
      cases hp1 : CpuMask.parseUsize first with
      | none =>
        rw [hp1] at h
        exact absurd h (by simp)
      | some a =>
        rw [hp1] at h
        cases hp2 : CpuMask.parseUsize second with
        | none =>
          rw [hp2] at h
          exact absurd h (by simp)
        | some b =>
          rw [hp2] at h
          dsimp only at h
          by_cases hab : b < a
          · rw [if_pos hab] at h
            exact absurd h (by simp)
          · rw [if_neg hab] at h
            cases hset : CpuMask.setRangeB
                (if bits.length ≤ b then CpuMask.growB bits (b + 1) else bits)
                a (b + 1) with
            | none =>
              rw [hset] at h
              exact absurd h (by simp)
            | some bset =>
              rw [hset] at h
              have hb2 : bset = b2 := by
                simp only [Option.some.injEq, Except.ok.injEq] at h
                exact h
              subst hb2
              rw [CpuMask.setRangeB] at hset
              set bits2 := if bits.length ≤ b then
                CpuMask.growB bits (b + 1) else bits with hbits2
              by_cases hin : b + 1 ≤ bits2.length
              · rw [if_pos hin] at hset
                have hbset : bset = CpuMask.orBitsFrom
                    (fun j => decide (a ≤ j) && decide (j < b + 1)) 0 bits2 := by
                  simp only [Option.some.injEq] at hset
                  exact hset.symm
                have hlen2 : bits.length ≤ bits2.length := by
                  rw [hbits2]
                  by_cases hg : bits.length ≤ b
                  · rw [if_pos hg, CpuMask.growB_length]
                    omega
                  · rw [if_neg hg]
                have hgetD2 : ∀ i, bits2.getD i false = bits.getD i false := by
                  intro i
                  rw [hbits2]
                  by_cases hg : bits.length ≤ b
                  · rw [if_pos hg, CpuMask.growB_getD]
                  · rw [if_neg hg]
                refine ⟨?_, ?_, ?_⟩
                · rw [hbset, CpuMask.orBitsFrom_length]
                  exact hlen2
                · intro i
                  rw [hbset, CpuMask.orBitsFrom_getD]
                  rw [hgetD2 i]
                  congr 1
                  rw [CpuMask.tokBody, hsp]
                  dsimp only
                  rw [hp1, hp2]
                  show (decide (i < bits2.length) &&
                    (decide (a ≤ 0 + i) && decide (0 + i < b + 1))) =
                    (decide (a ≤ i) && decide (i ≤ b))
                  rw [Nat.zero_add]
                  by_cases hrange : a ≤ i ∧ i ≤ b
                  · rw [decide_eq_true hrange.1,
                      decide_eq_true (show i < b + 1 by omega),
                      decide_eq_true (show i < bits2.length by omega),
                      decide_eq_true hrange.2]
                    rfl
                  · rcases Decidable.not_and_iff_or_not.mp hrange with hr | hr
                    · rw [decide_eq_false hr]
                      simp
                    · rw [decide_eq_false hr,
                        decide_eq_false (show ¬ i < b + 1 by omega)]
                      simp
                · intro f2 s2 r2 heq
                  simp only [List.cons.injEq] at heq
                  obtain ⟨hf, hs, _⟩ := heq
                  subst hf hs
                  intro a2 b2 hpa hpb
                  rw [hp1] at hpa
                  rw [hp2] at hpb
                  simp only [Option.some.injEq] at hpa hpb
                  omega
              · rw [if_neg hin] at hset
                exact absurd hset (by simp)

theorem CpuMask.getD_replicate_false : ∀ n i,
    (List.replicate n false).getD i false = false
  | 0, _ => by simp
  | n + 1, 0 => rfl
  | n + 1, i + 1 => by
    rw [List.replicate_succ, List.getD_cons_succ]
    exact CpuMask.getD_replicate_false n i

theorem CpuMask.toBitmaskGo_ok :
    ∀ toks bits bits', CpuMask.toBitmaskGo bits toks = some (.ok bits') →
      bits.length ≤ bits'.length ∧
      (∀ i, bits'.getD i false =
        (bits.getD i false || toks.any (CpuMask.tokMentions i))) ∧
      (∀ tok ∈ toks, ∀ first second rest2,
        (CpuMask.splitChar '-' (CpuMask.trimChars tok)).map CpuMask.trimChars =
          first :: second :: rest2 →
        ∀ a b, CpuMask.parseUsize first = some a →
          CpuMask.parseUsize second = some b → a ≤ b) := by
  intro toks
  induction toks with
  | nil =>
    intro bits bits' h
    rw [CpuMask.toBitmaskGo] at h
    simp only [Option.some.injEq, Except.ok.injEq] at h
    subst h
    exact ⟨le_rfl, fun i => by simp, by simp⟩
  | cons tok rest ih =>
    intro bits bits' h
    rw [CpuMask.toBitmaskGo] at h
    by_cases ht : CpuMask.trimChars tok = []
    · rw [if_pos ht] at h
      obtain ⟨h1, h2, h3⟩ := ih bits bits' h
      refine ⟨h1, fun i => ?_, ?_⟩
      · rw [h2 i, List.any_cons]
        rw [show CpuMask.tokMentions i tok = false from by
          rw [CpuMask.tokMentions, if_pos ht]]
        rw [Bool.false_or]
      · intro tok2 hmem f2 s2 r2 heq a b hpa hpb
        rcases List.mem_cons.mp hmem with rfl | hmem2
        · rw [ht] at heq
          simp [CpuMask.splitChar] at heq
        · exact h3 tok2 hmem2 f2 s2 r2 heq a b hpa hpb
    · rw [if_neg ht] at h
      cases hp : CpuMask.processToken bits (CpuMask.trimChars tok) with
      | none =>
        rw [hp] at h
        exact absurd h (by simp)
      | some res =>
        rw [hp] at h
        cases res with
        | error e => simp at h
        | ok bmid =>
          dsimp only at h
          obtain ⟨p1, p2, p3⟩ :=
            CpuMask.processToken_ok bits (CpuMask.trimChars tok) bmid hp
          obtain ⟨g1, g2, g3⟩ := ih bmid bits' h
          refine ⟨le_trans p1 g1, fun i => ?_, ?_⟩
          · rw [g2 i, p2 i, List.any_cons]
            rw [show CpuMask.tokMentions i tok =
              CpuMask.tokBody i (CpuMask.trimChars tok) from by
              rw [CpuMask.tokMentions, if_neg ht]]
            rw [Bool.or_assoc]
          · intro tok2 hmem f2 s2 r2 heq a b hpa hpb
            rcases List.mem_cons.mp hmem with rfl | hmem2
            · exact p3 f2 s2 r2 heq a b hpa hpb
            · exact g3 tok2 hmem2 f2 s2 r2 heq a b hpa hpb

theorem CpuMask.toBitmaskGo_filter :
    ∀ toks bits, CpuMask.toBitmaskGo bits toks =
      CpuMask.toBitmaskGo bits
        (toks.filter (fun t => decide (CpuMask.trimChars t ≠ []))) := by
  intro toks
  induction toks with
  | nil => intro bits; rfl
  | cons tok rest ih =>
    intro bits
    rw [CpuMask.toBitmaskGo]
    by_cases ht : CpuMask.trimChars tok = []
    · rw [if_pos ht, List.filter_cons_of_neg (by simp [ht])]
      exact ih bits
    · rw [if_neg ht, List.filter_cons_of_pos (by simp [ht])]
      rw [CpuMask.toBitmaskGo]
      rw [if_neg ht]
      cases hp : CpuMask.processToken bits (CpuMask.trimChars tok) with
      | none => rfl
      | some res =>
        cases res with
        | error e => rfl
        | ok bmid => exact ih bmid

/-- C5 (amended): for an accepted range string whose final bitset fits one
32-bit block, the result is the block's big-endian bytes with leading zero
bytes stripped, there is no leading zero byte, and bit `i` counting from the
end of the sequence is set exactly when index `i` appears in the input;
range tokens with `start > end` never parse (any accepted string has
`start ≤ end` in every range token) and empty tokens are skipped.  (For a
bitset beyond 32 bits the blocks are emitted low-block-first, each MSB-first,
and the bit-from-end reading fails — see the counterexample.) -/
theorem C5_cpuset_bitmask (s : String) (bits : List Bool)
    (h : CpuMask.to_bitmask_bits s = some (.ok bits))
    (hlen : bits.length ≤ 32) :
    CpuMask.to_bitmask s =
      some (.ok ((CpuMask.asBytes bits).dropWhile (fun b => b == 0))) ∧
    (∀ b0, ((CpuMask.asBytes bits).dropWhile (fun b => b == 0)).head? = some b0 →
      b0 ≠ 0) ∧
    (∀ i, CpuMask.nbit
        (CpuMask.bytesVal ((CpuMask.asBytes bits).dropWhile (fun b => b == 0)))
        i = 1 ↔ CpuMask.mentions s i = true) ∧
    (∀ tok ∈ CpuMask.splitTerm ',' s.data, ∀ first second rest2,
      (CpuMask.splitChar '-' (CpuMask.trimChars tok)).map CpuMask.trimChars =
        first :: second :: rest2 →
      ∀ a b, CpuMask.parseUsize first = some a →
        CpuMask.parseUsize second = some b → a ≤ b) ∧
    (∀ toks bits0, CpuMask.toBitmaskGo bits0 toks =
      CpuMask.toBitmaskGo bits0
        (toks.filter (fun t => decide (CpuMask.trimChars t ≠ [])))) := by
  have hgo : CpuMask.toBitmaskGo (List.replicate 8 false)
      (CpuMask.splitTerm ',' s.data) = some (.ok bits) := h
  obtain ⟨hL, hmem, hranges⟩ := CpuMask.toBitmaskGo_ok _ _ _ hgo
  have hmem2 : ∀ i, bits.getD i false = CpuMask.mentions s i := by
    intro i
    rw [hmem i]
    rw [CpuMask.getD_replicate_false 8 i, Bool.false_or]
    rfl
  have h8len : 8 ≤ bits.length := by
    have : (List.replicate 8 false).length = 8 := by simp
    omega
  have hblocks : CpuMask.numBlocks bits.length = 1 := by
    unfold CpuMask.numBlocks
    omega
  have hbytes : CpuMask.asBytes bits = CpuMask.beBytes4 (CpuMask.wordVal bits 0) := by
    unfold CpuMask.asBytes
    rw [hblocks, show List.range 1 = [0] from rfl, List.flatMap_cons,
      List.flatMap_nil, List.append_nil]
  have hword : CpuMask.wordVal bits 0 =
      CpuMask.sumF (fun k => bits.getD k false) 32 := by
    unfold CpuMask.wordVal CpuMask.sumF
    congr 1
  have hwlt : CpuMask.wordVal bits 0 < 2 ^ 32 := by
    rw [hword]
    exact CpuMask.sumF_lt _ 32
  have hval : CpuMask.bytesVal
      ((CpuMask.asBytes bits).dropWhile (fun b => b == 0)) =
      CpuMask.wordVal bits 0 := by
    rw [CpuMask.bytesVal_dropWhile_zero, hbytes, CpuMask.bytesVal_beBytes4 _ hwlt]
  refine ⟨?_, ?_, ?_, hranges, CpuMask.toBitmaskGo_filter⟩
  · rw [CpuMask.to_bitmask, h]
  · intro b0 hb0
    have := CpuMask.head_dropWhile_ne (fun b => b == 0) _ b0 hb0
    simpa using this
  · intro i
    rw [hval, hword, CpuMask.nbit_sumF]
    by_cases hi : i < 32
    · rw [if_pos hi, ← hmem2 i]
      cases hb : bits.getD i false
      · simp
      · simp
    · rw [if_neg hi, ← hmem2 i,
        CpuMask.getD_ge_length bits i (by omega)]
      simp

/-- C5 witness: the amended statement at the spec's example `0-3,7` (final
bitset `11110001`, one byte `0x8F = 143`). -/
theorem C5_cpuset_bitmask_witness :
    (CpuMask.to_bitmask "0-3,7" =
      some (.ok ((CpuMask.asBytes
        [true, true, true, true, false, false, false, true]).dropWhile
          (fun b => b == 0))) ∧
    (∀ b0, ((CpuMask.asBytes
        [true, true, true, true, false, false, false, true]).dropWhile
          (fun b => b == 0)).head? = some b0 → b0 ≠ 0) ∧
    (∀ i, CpuMask.nbit
        (CpuMask.bytesVal ((CpuMask.asBytes
          [true, true, true, true, false, false, false, true]).dropWhile
            (fun b => b == 0))) i = 1 ↔
      CpuMask.mentions "0-3,7" i = true) ∧
    (∀ tok ∈ CpuMask.splitTerm ',' "0-3,7".data, ∀ first second rest2,
      (CpuMask.splitChar '-' (CpuMask.trimChars tok)).map CpuMask.trimChars =
        first :: second :: rest2 →
      ∀ a b, CpuMask.parseUsize first = some a →
        CpuMask.parseUsize second = some b → a ≤ b) ∧
    (∀ toks bits0, CpuMask.toBitmaskGo bits0 toks =
      CpuMask.toBitmaskGo bits0
        (toks.filter (fun t => decide (CpuMask.trimChars t ≠ []))))) ∧
    CpuMask.to_bitmask "0-3,7" = some (.ok [143]) :=
  ⟨C5_cpuset_bitmask "0-3,7"
    [true, true, true, true, false, false, false, true] rfl (by norm_num), rfl⟩

namespace DevBpf

/-- Bitwise AND on the low `fuel` bits (executable, unlike `Nat.land`). -/
def andF : Nat → Nat → Nat → Nat
  | 0, _, _ => 0
  | fuel + 1, a, b =>
    (if a % 2 = 1 ∧ b % 2 = 1 then 1 else 0) + 2 * andF fuel (a / 2) (b / 2)

/-- Bitwise OR on the low `fuel` bits. -/
def orF : Nat → Nat → Nat → Nat
  | 0, _, _ => 0
  | fuel + 1, a, b =>
    (if a % 2 = 1 ∨ b % 2 = 1 then 1 else 0) + 2 * orF fuel (a / 2) (b / 2)

/-- 64-bit AND (the operands in this development are below `2 ^ 32`). -/
def land64 (a b : Nat) : Nat := andF 64 a b

/-- 64-bit OR. -/
def lor64 (a b : Nat) : Nat := orF 64 a b

/-- `oci_spec::runtime::LinuxDeviceType`. -/
inductive LinuxDeviceType where
  | A
  | B
  | C
  | P
  | U
  deriving DecidableEq, Repr

/-- `oci_spec::runtime::LinuxDeviceCgroup` (fields read by the compiler;
`major`/`minor` are `i64`).  The oci-spec `Default` for the type is `A`. -/
structure LinuxDeviceCgroup where
  allow : Bool
  typ : Option LinuxDeviceType
  major : Option Int
  minor : Option Int
  access : Option String
  deriving DecidableEq, Repr

inductive ProgramError where
  | InvalidAccess (c : Char)
  | DeviceNotSupported (what : String)
  | WildcardDevice
  deriving DecidableEq, Repr

/-- `bpf_dev_type` from `v2/devices/program.rs`:
`BPF_DEVCG_DEV_BLOCK = 1`, `BPF_DEVCG_DEV_CHAR = 2`. -/
def bpf_dev_type (typ : LinuxDeviceType) : Except ProgramError Nat :=
  match typ with
  | .C => .ok 2
  | .U => .error (.DeviceNotSupported "unbuffered char")
  | .B => .ok 1
  | .P => .error (.DeviceNotSupported "pipe device")
  | .A => .error .WildcardDevice

/-- The fold of `bpf_access`: `BPF_DEVCG_ACC_MKNOD = 1`,
`BPF_DEVCG_ACC_READ = 2`, `BPF_DEVCG_ACC_WRITE = 4`. -/
def bpf_access_go (v : Nat) : List Char → Except ProgramError Nat
  | [] => .ok v
  | c :: rest =>
    if c = 'r' then bpf_access_go (lor64 v 2) rest
    else if c = 'w' then bpf_access_go (lor64 v 4) rest
    else if c = 'm' then bpf_access_go (lor64 v 1) rest
    else .error (.InvalidAccess c)

/-- `bpf_access` from `v2/devices/program.rs`. -/
def bpf_access (access : String) : Except ProgramError Nat :=
  bpf_access_go 0 access.data

/-- The eBPF instructions emitted through the rbpf `insn_builder` by this
program (`imm` is the stored `i32`). -/
inductive Insn where
  | ldxw (dst src : Nat) (off : Nat)
  | and32i (dst : Nat) (imm : Int)
  | rsh32i (dst : Nat) (shift : Nat)
  | mov32i (dst : Nat) (imm : Int)
  | mov32r (dst src : Nat)
  | jneI (dst : Nat) (imm : Int) (off : Nat)
  | jneR (dst src : Nat) (off : Nat)
  | exit
  deriving DecidableEq, Repr

/-- `Program::init`: R2 = device type (low 16 bits of `access_type`),
R3 = access mask (high 16 bits), R4 = major, R5 = minor. -/
def initInsns : List Insn :=
  [.ldxw 2 1 0, .and32i 2 0xFFFF, .ldxw 3 1 0, .rsh32i 3 16,
   .ldxw 4 1 4, .ldxw 5 1 8]

/-- `Program::finalize`: R0 = `default_allow`; exit. -/
def finalizeInsns (default_allow : Bool) : List Insn :=
  [.mov32i 0 (if default_allow then 1 else 0), .exit]

/-- `Program::add_rule` from `v2/devices/program.rs`: the instruction block
of one rule.  `instruction_count` and the decreasing `next_rule_offset`
mirror the source; every `as i32` cast is `wrapSigned 32`. -/
def ruleInsns (rule : LinuxDeviceCgroup) : Except ProgramError (List Insn) := do
  let dev_type ← bpf_dev_type (rule.typ.getD .A)
  let access ← bpf_access (rule.access.getD "")
  let has_access : Bool := decide (access ≠ 7)
  let has_major : Bool := match rule.major with
    | some m => decide (0 ≤ m)
    | none => false
  let has_minor : Bool := match rule.minor with
    | some m => decide (0 ≤ m)
    | none => false
  let instruction_count := 1 + (if has_access then 3 else 0) +
    (if has_major then 1 else 0) + (if has_minor then 1 else 0) + 2
  let off1 := instruction_count - 1
  let off2 := off1 - 3
  let off3 := (if has_access then off2 else off1) - 1
  let off4 := (if has_major then off3 else
    (if has_access then off2 else off1)) - 1
  pure ([Insn.jneI 2 (wrapSigned 32 (Int.ofNat dev_type)) off1] ++
    (if has_access then
      [Insn.mov32r 1 3, Insn.and32i 1 (wrapSigned 32 (Int.ofNat access)),
       Insn.jneR 1 3 off2]
     else []) ++
    (if has_major then
      [Insn.jneI 4 (wrapSigned 32 (rule.major.getD 0)) off3]
     else []) ++
    (if has_minor then
      [Insn.jneI 5 (wrapSigned 32 (rule.minor.getD 0)) off4]
     else []) ++
    [Insn.mov32i 0 (if rule.allow then 1 else 0), Insn.exit])

/-- The rule blocks, in the order the source emits them (first error
wins). -/
def rulesInsns : List LinuxDeviceCgroup → Except ProgramError (List (List Insn))
  | [] => .ok []
  | r :: rest => do
    let i ← ruleInsns r
    let is ← rulesInsns rest
    pure (i :: is)

/-- `Program::from_rules`: prologue, then the rules in reverse order, then
the epilogue returning `default_allow`. -/
def from_rules (rules : List LinuxDeviceCgroup) (default_allow : Bool) :
    Except ProgramError (List Insn) := do
  let blocks ← rulesInsns rules.reverse
  pure (initInsns ++ blocks.flatMap id ++ finalizeInsns default_allow)

/-- `struct bpf_cgroup_dev_ctx`: three `u32` words at offsets 0, 4, 8. -/
structure BpfCtx where
  access_type : Nat
  major : Nat
  minor : Nat
  deriving DecidableEq, Repr

/-- `bpf_cgroup_dev_ctx` from `v2/devices/program.rs`: the device-type value
(0 when the type has no bpf encoding) in the low 16 bits and the access mask
shifted into the high bits; `major`/`minor` are passed as `u32`. -/
def bpf_cgroup_dev_ctx (typ : LinuxDeviceType) (major minor : Nat)
    (access : String) : Except ProgramError BpfCtx := do
  let t : Nat := match bpf_dev_type typ with
    | .ok v => land64 v 0xFFFF
    | .error _ => 0
  let a ← bpf_access access
  pure ⟨lor64 t (a <<< 16), major % 2 ^ 32, minor % 2 ^ 32⟩

/-- Word read from the context (the VM's only memory): offsets 0, 4, 8. -/
def loadW (ctx : BpfCtx) (addr : Nat) : Option Nat :=
  match addr with
  | 0 => some ctx.access_type
  | 4 => some ctx.major
  | 8 => some ctx.minor
  | _ => none

def upd (regs : Nat → Nat) (d v : Nat) : Nat → Nat :=
  fun i => if i = d then v else regs i

/-- The rbpf interpreter on the instruction subset used by the compiler:
32-bit ALU results are zero-extended, a jump immediate is the `i32`
sign-extended to `u64`, and a taken jump with offset `off` skips the next
`off` instructions (all jumps here are forward).  Falling off the end or an
unmodelled memory access is `none`. -/
def run (ctx : BpfCtx) : List Insn → (Nat → Nat) → Option Nat
  | [], _ => none
  | insn :: rest, regs =>
    match insn with
    | .exit => some (regs 0)
    | .ldxw dst src off =>
      match loadW ctx (regs src + off) with
      | some v => run ctx rest (upd regs dst v)
      | none => none
    | .and32i dst imm =>
      run ctx rest (upd regs dst (land64 (regs dst % 2 ^ 32) ((imm % 2 ^ 32).toNat)))
    | .rsh32i dst shift =>
      run ctx rest (upd regs dst ((regs dst % 2 ^ 32) >>> shift))
    | .mov32i dst imm =>
      run ctx rest (upd regs dst ((imm % 2 ^ 32).toNat))
    | .mov32r dst src =>
      run ctx rest (upd regs dst (regs src % 2 ^ 32))
    | .jneI dst imm off =>
      if regs dst ≠ ((imm % 2 ^ 64).toNat) then run ctx (rest.drop off) regs
      else run ctx rest regs
    | .jneR dst src off =>
      if regs dst ≠ regs src then run ctx (rest.drop off) regs
      else run ctx rest regs
  termination_by l _ => l.length
  decreasing_by
    all_goals simp [List.length_drop]
    all_goals omega

/-- `Program::execute`: all registers start at 0 (R1 is the context base,
modelled as address 0). -/
def execute (prog : List Insn) (ctx : BpfCtx) : Option Nat :=
  run ctx prog (fun _ => 0)

end DevBpf

namespace DevBpf

/-- A device-access request: the context `(type, major, minor, access)` of
the claim. -/
structure DevRequest where
  typ : LinuxDeviceType
  major : Nat
  minor : Nat
  access : String

/-- Spec-side matcher, written from the spec's words: the device types must
agree; the requested access bits must all lie within the rule's mask (a full
`rwm` mask means no access check); a present non-negative major/minor must
equal the request's; `-1` (or an absent field) is a wildcard. -/
def specMatches (rule : LinuxDeviceCgroup) (req : DevRequest) : Bool :=
  match bpf_dev_type (rule.typ.getD .A), bpf_dev_type req.typ,
      bpf_access (rule.access.getD ""), bpf_access req.access with
  | .ok rt, .ok qt, .ok ra, .ok qa =>
    decide (rt = qt) && decide (land64 qa ra = qa) &&
    (match rule.major with
     | some m => if 0 ≤ m then decide (m = (req.major : Int)) else true
     | none => true) &&
    (match rule.minor with
     | some m => if 0 ≤ m then decide (m = (req.minor : Int)) else true
     | none => true)
  | _, _, _, _ => false

/-- Spec-side answer: the `allow` of the last rule in the list that matches,
if any. -/
def lastMatch (rules : List LinuxDeviceCgroup) (req : DevRequest) :
    Option Bool :=
  (rules.reverse.find? (fun r => specMatches r req)).map (fun r => r.allow)

def boolVal (b : Bool) : Nat := if b then 1 else 0

/-- The conditions the emitted block of a rule actually tests, in terms of
the register values `t` (device type), `a` (access bits), `maj`, `minr`. -/
def matchesVals (r : LinuxDeviceCgroup) (t a maj minr : Nat) : Bool :=
  match bpf_dev_type (r.typ.getD .A), bpf_access (r.access.getD "") with
  | .ok dt, .ok ra =>
    decide (t = dt) && decide (land64 a ra = a) &&
    (match r.major with
     | some m => if 0 ≤ m then decide (maj = m.toNat) else true
     | none => true) &&
    (match r.minor with
     | some m => if 0 ≤ m then decide (minr = m.toNat) else true
     | none => true)
  | _, _ => false

end DevBpf

set_option maxRecDepth 10000 in
/-- C1 counterexample: a single char rule with `major = 2 ^ 31` and full
`rwm` access, `default_allow = false`, and a read request on
`(char, 2 ^ 31, 0)`: the rule is the last matching rule (so the claim
demands the program return its allow, `1`), but the emitted `i32` jump
immediate is the truncated `-2 ^ 31`, sign-extended by the VM to
`2 ^ 64 - 2 ^ 31 ≠ 2 ^ 31`, so the program falls through to the default and
returns `0`. -/
theorem C1_counterexample :
    (DevBpf.from_rules
        [⟨true, some .C, some ((2 : Int) ^ 31), none, some "rwm"⟩] false).map
      (fun p => (DevBpf.bpf_cgroup_dev_ctx .C (2 ^ 31) 0 "r").map
        (DevBpf.execute p)) = .ok (.ok (some 0)) ∧
    DevBpf.lastMatch [⟨true, some .C, some ((2 : Int) ^ 31), none, some "rwm"⟩]
      ⟨.C, 2 ^ 31, 0, "r"⟩ = some true ∧
    DevBpf.boolVal true = 1 ∧ (0 : Nat) ≠ 1 := by
  refine ⟨?_, rfl, rfl, by norm_num⟩
  simp [DevBpf.from_rules, DevBpf.rulesInsns, DevBpf.ruleInsns,
    DevBpf.bpf_dev_type, DevBpf.bpf_access, DevBpf.bpf_access_go,
    DevBpf.bpf_cgroup_dev_ctx, DevBpf.lor64, DevBpf.land64, DevBpf.orF,
    DevBpf.andF, DevBpf.initInsns, DevBpf.finalizeInsns, DevBpf.execute,
    DevBpf.run, DevBpf.upd, DevBpf.loadW, wrapSigned, Except.map, bind,
    Except.bind, pure, Except.pure, List.flatten]

theorem DevBpf.lor64_lt_8 (v b : Nat) (hv : v < 8) (hb : b < 8) :
    DevBpf.lor64 v b < 8 := by
  interval_cases v <;> interval_cases b <;> decide

theorem DevBpf.land64_7 (a : Nat) (ha : a < 8) : DevBpf.land64 a 7 = a := by
  interval_cases a <;> decide

theorem DevBpf.bpf_access_go_lt :
    ∀ l v w, v < 8 → DevBpf.bpf_access_go v l = .ok w → w < 8 := by
  intro l
  induction l with
  | nil =>
    intro v w hv h
    rw [DevBpf.bpf_access_go] at h
    simp only [Except.ok.injEq] at h
    omega
  | cons c rest ih =>
    intro v w hv h
    rw [DevBpf.bpf_access_go] at h
    by_cases hr : c = 'r'
    · rw [if_pos hr] at h
      exact ih _ w (DevBpf.lor64_lt_8 v 2 hv (by norm_num)) h
    · rw [if_neg hr] at h
      by_cases hw : c = 'w'
      · rw [if_pos hw] at h
        exact ih _ w (DevBpf.lor64_lt_8 v 4 hv (by norm_num)) h
      · rw [if_neg hw] at h
        by_cases hm : c = 'm'
        · rw [if_pos hm] at h
          exact ih _ w (DevBpf.lor64_lt_8 v 1 hv (by norm_num)) h
        · rw [if_neg hm] at h
          exact absurd h (by simp)

theorem DevBpf.bpf_access_go_ok :
    ∀ l v, (∀ c ∈ l, c = 'r' ∨ c = 'w' ∨ c = 'm') →
      ∃ w, DevBpf.bpf_access_go v l = .ok w := by
  intro l
  induction l with
  | nil =>
    intro v _
    exact ⟨v, rfl⟩
  | cons c rest ih =>
    intro v hc
    rw [DevBpf.bpf_access_go]
    rcases hc c (List.mem_cons_self c rest) with rfl | rfl | rfl
    · rw [if_pos rfl]
      exact ih _ (fun d hd => hc d (List.mem_cons_of_mem _ hd))
    · rw [if_neg (by decide), if_pos rfl]
      exact ih _ (fun d hd => hc d (List.mem_cons_of_mem _ hd))
    · rw [if_neg (by decide), if_neg (by decide), if_pos rfl]
      exact ih _ (fun d hd => hc d (List.mem_cons_of_mem _ hd))

theorem DevBpf.bpf_access_ok (s : String)
    (h : ∀ c ∈ s.data, c = 'r' ∨ c = 'w' ∨ c = 'm') :
    ∃ w, DevBpf.bpf_access s = .ok w ∧ w < 8 := by
  obtain ⟨w, hw⟩ := DevBpf.bpf_access_go_ok s.data 0 h
  exact ⟨w, hw, DevBpf.bpf_access_go_lt s.data 0 w (by norm_num) hw⟩

theorem DevBpf.bpf_dev_type_vals (ty : DevBpf.LinuxDeviceType) (v : Nat)
    (h : DevBpf.bpf_dev_type ty = .ok v) : v = 1 ∨ v = 2 := by
  cases ty <;> simp [DevBpf.bpf_dev_type] at h <;> omega

theorem DevBpf.immS64_ofNat (n : Nat) (h : n < 2 ^ 31) :
    ((wrapSigned 32 (Int.ofNat n)) % 2 ^ 64).toNat = n := by
  unfold wrapSigned
  norm_num
  omega

theorem DevBpf.immS64_int (m : Int) (h0 : 0 ≤ m) (h : m < 2 ^ 31) :
    ((wrapSigned 32 m) % 2 ^ 64).toNat = m.toNat := by
  unfold wrapSigned
  omega

theorem DevBpf.immU32_ofNat (n : Nat) (h : n < 2 ^ 31) :
    ((wrapSigned 32 (Int.ofNat n)) % 2 ^ 32).toNat = n := by
  unfold wrapSigned
  norm_num
  omega

theorem DevBpf.ctx_pack (t a : Nat) (ht : t = 1 ∨ t = 2) (ha : a < 8) :
    DevBpf.lor64 (DevBpf.land64 t 0xFFFF) (a <<< 16) = t + a * 65536 := by
  rcases ht with rfl | rfl <;> interval_cases a <;> decide

theorem DevBpf.ctx_low (t a : Nat) (ht : t = 1 ∨ t = 2) (ha : a < 8) :
    DevBpf.land64 ((t + a * 65536) % 2 ^ 32) 65535 = t := by
  have hlt : t + a * 65536 < 2 ^ 32 := by omega
  rw [Nat.mod_eq_of_lt hlt]
  rcases ht with rfl | rfl <;> interval_cases a <;> decide

theorem DevBpf.ctx_high (t a : Nat) (ht : t = 1 ∨ t = 2) (ha : a < 8) :
    ((t + a * 65536) % 2 ^ 32) >>> 16 = a := by
  have hlt : t + a * 65536 < 2 ^ 32 := by omega
  rw [Nat.mod_eq_of_lt hlt]
  rcases ht with rfl | rfl <;> interval_cases a <;> decide

/-- Single optional-value check of the spec-side matcher. -/
def DevBpf.mCheck (o : Option Nat) (v : Nat) : Bool :=
  match o with
  | some x => decide (v = x)
  | none => true

/-- The major/minor field as the emitted comparison value: present iff the
field is a non-negative integer. -/
def DevBpf.optM (o : Option Int) : Option Nat :=
  match o with
  | some m => if 0 ≤ m then some m.toNat else none
  | none => none

/-- The rule block of `Program::add_rule` in terms of the already-translated
device type, access mask and comparison values. -/
def DevBpf.blockOf (dt ra : Nat) (oM oN : Option Nat) (al : Bool) :
    List DevBpf.Insn :=
  let hasA : Bool := decide (ra ≠ 7)
  let cnt := 1 + (if hasA then 3 else 0) + (if oM.isSome then 1 else 0) +
    (if oN.isSome then 1 else 0) + 2
  let off1 := cnt - 1
  let off2 := off1 - 3
  let off3 := (if hasA then off2 else off1) - 1
  let off4 := (if oM.isSome then off3 else (if hasA then off2 else off1)) - 1
  [DevBpf.Insn.jneI 2 (wrapSigned 32 (Int.ofNat dt)) off1] ++
  (if hasA then
    [DevBpf.Insn.mov32r 1 3,
     DevBpf.Insn.and32i 1 (wrapSigned 32 (Int.ofNat ra)),
     DevBpf.Insn.jneR 1 3 off2] else []) ++
  (match oM with
   | some mv => [DevBpf.Insn.jneI 4 (wrapSigned 32 (Int.ofNat mv)) off3]
   | none => []) ++
  (match oN with
   | some nv => [DevBpf.Insn.jneI 5 (wrapSigned 32 (Int.ofNat nv)) off4]
   | none => []) ++
  [DevBpf.Insn.mov32i 0 (if al then 1 else 0), DevBpf.Insn.exit]

theorem DevBpf.ofNat_toNat (m : Int) (h : 0 ≤ m) : Int.ofNat m.toNat = m :=
  show ((m.toNat : Nat) : Int) = m from Int.toNat_of_nonneg h

theorem DevBpf.ruleInsns_eq_blockOf (r : DevBpf.LinuxDeviceCgroup)
    (dt ra : Nat)
    (hdt : DevBpf.bpf_dev_type (r.typ.getD .A) = .ok dt)
    (hra : DevBpf.bpf_access (r.access.getD "") = .ok ra) :
    DevBpf.ruleInsns r =
      .ok (DevBpf.blockOf dt ra (DevBpf.optM r.major) (DevBpf.optM r.minor)
        r.allow) := by
  rw [DevBpf.ruleInsns, hdt, hra]
  simp only [bind, Except.bind, pure, Except.pure, Except.ok.injEq]
  rcases r.major with _ | m <;> rcases r.minor with _ | n <;>
    simp only [DevBpf.blockOf, DevBpf.optM, Option.getD_some, Option.getD_none,
      Option.isSome_some, Option.isSome_none, decide_eq_true_eq] <;>
    split_ifs <;>
    simp_all [DevBpf.ofNat_toNat]

theorem DevBpf.matchesVals_eq (r : DevBpf.LinuxDeviceCgroup) (dt ra : Nat)
    (hdt : DevBpf.bpf_dev_type (r.typ.getD .A) = .ok dt)
    (hra : DevBpf.bpf_access (r.access.getD "") = .ok ra)
    (t a maj minr : Nat) :
    DevBpf.matchesVals r t a maj minr =
      (decide (t = dt) && decide (DevBpf.land64 a ra = a) &&
       DevBpf.mCheck (DevBpf.optM r.major) maj &&
       DevBpf.mCheck (DevBpf.optM r.minor) minr) := by
  rw [DevBpf.matchesVals, hdt, hra]
  rcases r.major with _ | m <;> rcases r.minor with _ | n <;>
    simp only [DevBpf.optM, DevBpf.mCheck] <;> split_ifs <;> rfl

theorem DevBpf.upd_apply (regs : Nat → Nat) (d v i : Nat) :
    DevBpf.upd regs d v i = if i = d then v else regs i := rfl

set_option maxRecDepth 4000 in
theorem DevBpf.run_blockOf (ctx : DevBpf.BpfCtx) (dt ra : Nat)
    (oM oN : Option Nat) (al : Bool) (rest : List DevBpf.Insn)
    (regs : Nat → Nat) (t a maj minr : Nat)
    (hdt : dt = 1 ∨ dt = 2) (hra : ra < 8) (ha : a < 8)
    (hM : ∀ v, oM = some v → v < 2 ^ 31)
    (hN : ∀ v, oN = some v → v < 2 ^ 31)
    (h2 : regs 2 = t) (h3 : regs 3 = a) (h4 : regs 4 = maj)
    (h5 : regs 5 = minr) :
    ∃ regs2, regs2 2 = t ∧ regs2 3 = a ∧ regs2 4 = maj ∧ regs2 5 = minr ∧
      DevBpf.run ctx (DevBpf.blockOf dt ra oM oN al ++ rest) regs =
        (if (decide (t = dt) && decide (DevBpf.land64 a ra = a) &&
             DevBpf.mCheck oM maj && DevBpf.mCheck oN minr) = true then
          some (DevBpf.boolVal al)
        else DevBpf.run ctx rest regs2) := by
  have hdt31 : dt < 2 ^ 31 := by rcases hdt with rfl | rfl <;> norm_num
  have idt := DevBpf.immS64_ofNat dt hdt31
  have ira := DevBpf.immU32_ofNat ra (by omega)
  have ha32 : a % 4294967296 = a := Nat.mod_eq_of_lt (by omega)
  have ial : (((if al then (1 : Int) else 0)) % 2 ^ 32).toNat =
      DevBpf.boolVal al := by cases al <;> rfl
  simp only [Int.ofNat_eq_natCast, Int.reducePow, Nat.reducePow] at idt ira ial
  rcases oM with _ | mv <;> rcases oN with _ | nv <;> by_cases hA : ra = 7
  · -- no major, no minor, full access mask
    subst hA
    by_cases hc1 : t = dt
    · exact ⟨regs, h2, h3, h4, h5, by
        simp [DevBpf.blockOf, DevBpf.run, DevBpf.upd_apply, DevBpf.mCheck,
          h2, h3, h4, h5, hc1, idt, ial, DevBpf.land64_7 a ha]⟩
    · exact ⟨regs, h2, h3, h4, h5, by
        simp [DevBpf.blockOf, DevBpf.run, DevBpf.upd_apply, DevBpf.mCheck,
          h2, h3, h4, h5, hc1, idt, ial, DevBpf.land64_7 a ha]⟩
  · -- no major, no minor, access check
    by_cases hc1 : t = dt
    · by_cases hc2 : DevBpf.land64 a ra = a
      · exact ⟨regs, h2, h3, h4, h5, by
          simp [DevBpf.blockOf, DevBpf.run, DevBpf.upd_apply, DevBpf.mCheck,
            h2, h3, h4, h5, hc1, hc2, hA, idt, ira, ial, ha32]⟩
      · exact ⟨DevBpf.upd (DevBpf.upd regs 1 a) 1 (DevBpf.land64 a ra),
          by simp [DevBpf.upd_apply, h2], by simp [DevBpf.upd_apply, h3],
          by simp [DevBpf.upd_apply, h4], by simp [DevBpf.upd_apply, h5], by
          simp [DevBpf.blockOf, DevBpf.run, DevBpf.upd_apply, DevBpf.mCheck,
            h2, h3, h4, h5, hc1, hc2, hA, idt, ira, ial, ha32]⟩
    · exact ⟨regs, h2, h3, h4, h5, by
        simp [DevBpf.blockOf, DevBpf.run, DevBpf.upd_apply, DevBpf.mCheck,
          h2, h3, h4, h5, hc1, hA, idt, ira, ial, ha32]⟩
  · -- no major, minor check, full access mask
    subst hA
    have inv := DevBpf.immS64_ofNat nv (hN nv rfl)
    simp only [Int.ofNat_eq_natCast, Int.reducePow, Nat.reducePow] at inv
    by_cases hc1 : t = dt
    · by_cases hc4 : minr = nv
      · exact ⟨regs, h2, h3, h4, h5, by
          simp [DevBpf.blockOf, DevBpf.run, DevBpf.upd_apply, DevBpf.mCheck,
            h2, h3, h4, h5, hc1, hc4, idt, inv, ial, DevBpf.land64_7 a ha]⟩
      · exact ⟨regs, h2, h3, h4, h5, by
          simp [DevBpf.blockOf, DevBpf.run, DevBpf.upd_apply, DevBpf.mCheck,
            h2, h3, h4, h5, hc1, hc4, idt, inv, ial, DevBpf.land64_7 a ha]⟩
    · exact ⟨regs, h2, h3, h4, h5, by
        simp [DevBpf.blockOf, DevBpf.run, DevBpf.upd_apply, DevBpf.mCheck,
          h2, h3, h4, h5, hc1, idt, inv, ial, DevBpf.land64_7 a ha]⟩
  · -- no major, minor check, access check
    have inv := DevBpf.immS64_ofNat nv (hN nv rfl)
    simp only [Int.ofNat_eq_natCast, Int.reducePow, Nat.reducePow] at inv
    by_cases hc1 : t = dt
    · by_cases hc2 : DevBpf.land64 a ra = a
      · by_cases hc4 : minr = nv
        · exact ⟨regs, h2, h3, h4, h5, by
            simp [DevBpf.blockOf, DevBpf.run, DevBpf.upd_apply, DevBpf.mCheck,
              h2, h3, h4, h5, hc1, hc2, hc4, hA, idt, ira, inv, ial, ha32]⟩
        · exact ⟨DevBpf.upd (DevBpf.upd regs 1 a) 1 (DevBpf.land64 a ra),
            by simp [DevBpf.upd_apply, h2], by simp [DevBpf.upd_apply, h3],
            by simp [DevBpf.upd_apply, h4], by simp [DevBpf.upd_apply, h5], by
            simp [DevBpf.blockOf, DevBpf.run, DevBpf.upd_apply, DevBpf.mCheck,
              h2, h3, h4, h5, hc1, hc2, hc4, hA, idt, ira, inv, ial, ha32]⟩
      · exact ⟨DevBpf.upd (DevBpf.upd regs 1 a) 1 (DevBpf.land64 a ra),
          by simp [DevBpf.upd_apply, h2], by simp [DevBpf.upd_apply, h3],
          by simp [DevBpf.upd_apply, h4], by simp [DevBpf.upd_apply, h5], by
          simp [DevBpf.blockOf, DevBpf.run, DevBpf.upd_apply, DevBpf.mCheck,
            h2, h3, h4, h5, hc1, hc2, hA, idt, ira, inv, ial, ha32]⟩
    · exact ⟨regs, h2, h3, h4, h5, by
        simp [DevBpf.blockOf, DevBpf.run, DevBpf.upd_apply, DevBpf.mCheck,
          h2, h3, h4, h5, hc1, hA, idt, ira, inv, ial, ha32]⟩
  · -- major check, no minor, full access mask
    subst hA
    have imv := DevBpf.immS64_ofNat mv (hM mv rfl)
    simp only [Int.ofNat_eq_natCast, Int.reducePow, Nat.reducePow] at imv
    by_cases hc1 : t = dt
    · by_cases hc3 : maj = mv
      · exact ⟨regs, h2, h3, h4, h5, by
          simp [DevBpf.blockOf, DevBpf.run, DevBpf.upd_apply, DevBpf.mCheck,
            h2, h3, h4, h5, hc1, hc3, idt, imv, ial, DevBpf.land64_7 a ha]⟩
      · exact ⟨regs, h2, h3, h4, h5, by
          simp [DevBpf.blockOf, DevBpf.run, DevBpf.upd_apply, DevBpf.mCheck,
            h2, h3, h4, h5, hc1, hc3, idt, imv, ial, DevBpf.land64_7 a ha]⟩
    · exact ⟨regs, h2, h3, h4, h5, by
        simp [DevBpf.blockOf, DevBpf.run, DevBpf.upd_apply, DevBpf.mCheck,
          h2, h3, h4, h5, hc1, idt, imv, ial, DevBpf.land64_7 a ha]⟩
  · -- major check, no minor, access check
    have imv := DevBpf.immS64_ofNat mv (hM mv rfl)
    simp only [Int.ofNat_eq_natCast, Int.reducePow, Nat.reducePow] at imv
    by_cases hc1 : t = dt
    · by_cases hc2 : DevBpf.land64 a ra = a
      · by_cases hc3 : maj = mv
        · exact ⟨regs, h2, h3, h4, h5, by
            simp [DevBpf.blockOf, DevBpf.run, DevBpf.upd_apply, DevBpf.mCheck,
              h2, h3, h4, h5, hc1, hc2, hc3, hA, idt, ira, imv, ial, ha32]⟩
        · exact ⟨DevBpf.upd (DevBpf.upd regs 1 a) 1 (DevBpf.land64 a ra),
            by simp [DevBpf.upd_apply, h2], by simp [DevBpf.upd_apply, h3],
            by simp [DevBpf.upd_apply, h4], by simp [DevBpf.upd_apply, h5], by
            simp [DevBpf.blockOf, DevBpf.run, DevBpf.upd_apply, DevBpf.mCheck,
              h2, h3, h4, h5, hc1, hc2, hc3, hA, idt, ira, imv, ial, ha32]⟩
      · exact ⟨DevBpf.upd (DevBpf.upd regs 1 a) 1 (DevBpf.land64 a ra),
          by simp [DevBpf.upd_apply, h2], by simp [DevBpf.upd_apply, h3],
          by simp [DevBpf.upd_apply, h4], by simp [DevBpf.upd_apply, h5], by
          simp [DevBpf.blockOf, DevBpf.run, DevBpf.upd_apply, DevBpf.mCheck,
            h2, h3, h4, h5, hc1, hc2, hA, idt, ira, imv, ial, ha32]⟩
    · exact ⟨regs, h2, h3, h4, h5, by
        simp [DevBpf.blockOf, DevBpf.run, DevBpf.upd_apply, DevBpf.mCheck,
          h2, h3, h4, h5, hc1, hA, idt, ira, imv, ial, ha32]⟩
  · -- major check, minor check, full access mask
    subst hA
    have imv := DevBpf.immS64_ofNat mv (hM mv rfl)
    simp only [Int.ofNat_eq_natCast, Int.reducePow, Nat.reducePow] at imv
    have inv := DevBpf.immS64_ofNat nv (hN nv rfl)
    simp only [Int.ofNat_eq_natCast, Int.reducePow, Nat.reducePow] at inv
    by_cases hc1 : t = dt
    · by_cases hc3 : maj = mv
      · by_cases hc4 : minr = nv
        · exact ⟨regs, h2, h3, h4, h5, by
            simp [DevBpf.blockOf, DevBpf.run, DevBpf.upd_apply, DevBpf.mCheck,
              h2, h3, h4, h5, hc1, hc3, hc4, idt, imv, inv, ial,
              DevBpf.land64_7 a ha]⟩
        · exact ⟨regs, h2, h3, h4, h5, by
            simp [DevBpf.blockOf, DevBpf.run, DevBpf.upd_apply, DevBpf.mCheck,
              h2, h3, h4, h5, hc1, hc3, hc4, idt, imv, inv, ial,
              DevBpf.land64_7 a ha]⟩
      · exact ⟨regs, h2, h3, h4, h5, by
          simp [DevBpf.blockOf, DevBpf.run, DevBpf.upd_apply, DevBpf.mCheck,
            h2, h3, h4, h5, hc1, hc3, idt, imv, inv, ial,
            DevBpf.land64_7 a ha]⟩
    · exact ⟨regs, h2, h3, h4, h5, by
        simp [DevBpf.blockOf, DevBpf.run, DevBpf.upd_apply, DevBpf.mCheck,
          h2, h3, h4, h5, hc1, idt, imv, inv, ial, DevBpf.land64_7 a ha]⟩
  · -- major check, minor check, access check
    have imv := DevBpf.immS64_ofNat mv (hM mv rfl)
    simp only [Int.ofNat_eq_natCast, Int.reducePow, Nat.reducePow] at imv
    have inv := DevBpf.immS64_ofNat nv (hN nv rfl)
    simp only [Int.ofNat_eq_natCast, Int.reducePow, Nat.reducePow] at inv
    by_cases hc1 : t = dt
    · by_cases hc2 : DevBpf.land64 a ra = a
      · by_cases hc3 : maj = mv
        · by_cases hc4 : minr = nv
          · exact ⟨regs, h2, h3, h4, h5, by
              simp [DevBpf.blockOf, DevBpf.run, DevBpf.upd_apply,
                DevBpf.mCheck, h2, h3, h4, h5, hc1, hc2, hc3, hc4, hA, idt,
                ira, imv, inv, ial, ha32]⟩
          · exact ⟨DevBpf.upd (DevBpf.upd regs 1 a) 1 (DevBpf.land64 a ra),
              by simp [DevBpf.upd_apply, h2], by simp [DevBpf.upd_apply, h3],
              by simp [DevBpf.upd_apply, h4], by simp [DevBpf.upd_apply, h5],
              by
              simp [DevBpf.blockOf, DevBpf.run, DevBpf.upd_apply,
                DevBpf.mCheck, h2, h3, h4, h5, hc1, hc2, hc3, hc4, hA, idt,
                ira, imv, inv, ial, ha32]⟩
        · exact ⟨DevBpf.upd (DevBpf.upd regs 1 a) 1 (DevBpf.land64 a ra),
            by simp [DevBpf.upd_apply, h2], by simp [DevBpf.upd_apply, h3],
            by simp [DevBpf.upd_apply, h4], by simp [DevBpf.upd_apply, h5], by
            simp [DevBpf.blockOf, DevBpf.run, DevBpf.upd_apply, DevBpf.mCheck,
              h2, h3, h4, h5, hc1, hc2, hc3, hA, idt, ira, imv, inv, ial,
              ha32]⟩
      · exact ⟨DevBpf.upd (DevBpf.upd regs 1 a) 1 (DevBpf.land64 a ra),
          by simp [DevBpf.upd_apply, h2], by simp [DevBpf.upd_apply, h3],
          by simp [DevBpf.upd_apply, h4], by simp [DevBpf.upd_apply, h5], by
          simp [DevBpf.blockOf, DevBpf.run, DevBpf.upd_apply, DevBpf.mCheck,
            h2, h3, h4, h5, hc1, hc2, hA, idt, ira, imv, inv, ial, ha32]⟩
    · exact ⟨regs, h2, h3, h4, h5, by
        simp [DevBpf.blockOf, DevBpf.run, DevBpf.upd_apply, DevBpf.mCheck,
          h2, h3, h4, h5, hc1, hA, idt, ira, imv, inv, ial, ha32]⟩

theorem DevBpf.ctx_low' (t a : Nat) (ht : t = 1 ∨ t = 2) (ha : a < 8) :
    DevBpf.land64 ((t + a * 65536) % 4294967296) 65535 = t := by
  have hlt : t + a * 65536 < 4294967296 := by omega
  rw [Nat.mod_eq_of_lt hlt]
  rcases ht with rfl | rfl <;> interval_cases a <;> decide

theorem DevBpf.ctx_high' (t a : Nat) (ht : t = 1 ∨ t = 2) (ha : a < 8) :
    ((t + a * 65536) % 4294967296) >>> 16 = a := by
  have hlt : t + a * 65536 < 4294967296 := by omega
  rw [Nat.mod_eq_of_lt hlt]
  rcases ht with rfl | rfl <;> interval_cases a <;> decide

theorem DevBpf.run_init (t a maj minr : Nat) (ht : t = 1 ∨ t = 2)
    (ha : a < 8) (rest : List DevBpf.Insn) :
    DevBpf.run ⟨t + a * 65536, maj, minr⟩ (DevBpf.initInsns ++ rest)
        (fun _ => 0) =
      DevBpf.run ⟨t + a * 65536, maj, minr⟩ rest
        (DevBpf.upd (DevBpf.upd (DevBpf.upd (DevBpf.upd (DevBpf.upd
          (DevBpf.upd (fun _ => 0) 2 (t + a * 65536)) 2 t) 3 (t + a * 65536))
          3 a) 4 maj) 5 minr) := by
  simp [DevBpf.initInsns, DevBpf.run, DevBpf.upd_apply, DevBpf.loadW,
    DevBpf.ctx_low' t a ht ha, DevBpf.ctx_high' t a ht ha]

theorem DevBpf.run_finalize (ctx : DevBpf.BpfCtx) (D : Bool)
    (regs : Nat → Nat) :
    DevBpf.run ctx (DevBpf.finalizeInsns D) regs = some (DevBpf.boolVal D) := by
  cases D <;> simp [DevBpf.finalizeInsns, DevBpf.run, DevBpf.upd_apply,
    DevBpf.boolVal]

theorem DevBpf.optM_bound (o : Option Int) (h : o.getD 0 < 2 ^ 31) :
    ∀ v, DevBpf.optM o = some v → v < 2 ^ 31 := by
  intro v hv
  rcases o with _ | m
  · simp [DevBpf.optM] at hv
  · simp only [DevBpf.optM, Option.getD_some] at hv h
    by_cases h0 : 0 ≤ m
    · rw [if_pos h0] at hv
      simp only [Option.some.injEq] at hv
      omega
    · rw [if_neg h0] at hv
      exact absurd hv (by simp)

theorem DevBpf.ruleInsns_ok_inv (r : DevBpf.LinuxDeviceCgroup)
    (b : List DevBpf.Insn) (h : DevBpf.ruleInsns r = .ok b) :
    ∃ dt ra, DevBpf.bpf_dev_type (r.typ.getD .A) = .ok dt ∧
      DevBpf.bpf_access (r.access.getD "") = .ok ra := by
  rw [DevBpf.ruleInsns] at h
  cases hdt : DevBpf.bpf_dev_type (r.typ.getD .A) with
  | error e => rw [hdt] at h; exact absurd h (by simp [bind, Except.bind])
  | ok dt =>
    cases hra : DevBpf.bpf_access (r.access.getD "") with
    | error e =>
      rw [hdt, hra] at h
      exact absurd h (by simp [bind, Except.bind])
    | ok ra => exact ⟨dt, ra, rfl, rfl⟩

theorem DevBpf.rulesInsns_ok (rs : List DevBpf.LinuxDeviceCgroup)
    (h : ∀ r ∈ rs, (r.typ.getD .A = .B ∨ r.typ.getD .A = .C) ∧
      (∀ c ∈ (r.access.getD "").data, c = 'r' ∨ c = 'w' ∨ c = 'm')) :
    ∃ bs, DevBpf.rulesInsns rs = .ok bs := by
  induction rs with
  | nil => exact ⟨[], rfl⟩
  | cons r rs ih =>
    obtain ⟨htyp, hacc⟩ := h r (List.mem_cons_self r rs)
    obtain ⟨bs, hbs⟩ := ih (fun x hx => h x (List.mem_cons_of_mem _ hx))
    have hdt : ∃ dt, DevBpf.bpf_dev_type (r.typ.getD .A) = .ok dt := by
      rcases htyp with ht | ht <;> rw [ht] <;> exact ⟨_, rfl⟩
    obtain ⟨dt, hdt⟩ := hdt
    obtain ⟨ra, hra, _⟩ := DevBpf.bpf_access_ok _ hacc
    refine ⟨DevBpf.blockOf dt ra (DevBpf.optM r.major) (DevBpf.optM r.minor)
      r.allow :: bs, ?_⟩
    rw [DevBpf.rulesInsns, DevBpf.ruleInsns_eq_blockOf r dt ra hdt hra, hbs]
    rfl

theorem DevBpf.find_congr {α : Type} (p q : α → Bool) :
    ∀ l : List α, (∀ x ∈ l, p x = q x) → l.find? p = l.find? q := by
  intro l
  induction l with
  | nil => intro _; rfl
  | cons x xs ih =>
    intro h
    rw [List.find?_cons, List.find?_cons, h x (List.mem_cons_self x xs),
      ih (fun y hy => h y (List.mem_cons_of_mem _ hy))]

theorem DevBpf.run_rules (ctx : DevBpf.BpfCtx)
    (rs : List DevBpf.LinuxDeviceCgroup) (blocks : List (List DevBpf.Insn))
    (D : Bool) (regs : Nat → Nat) (t a maj minr : Nat)
    (hblocks : DevBpf.rulesInsns rs = .ok blocks)
    (hwf : ∀ r ∈ rs, r.major.getD 0 < 2 ^ 31 ∧ r.minor.getD 0 < 2 ^ 31)
    (ha : a < 8)
    (h2 : regs 2 = t) (h3 : regs 3 = a) (h4 : regs 4 = maj)
    (h5 : regs 5 = minr) :
    DevBpf.run ctx (blocks.flatMap id ++ DevBpf.finalizeInsns D) regs =
      some (DevBpf.boolVal
        (((rs.find? (fun r => DevBpf.matchesVals r t a maj minr)).map
          (fun r => r.allow)).getD D)) := by
  induction rs generalizing blocks regs with
  | nil =>
    simp only [DevBpf.rulesInsns, Except.ok.injEq] at hblocks
    subst hblocks
    simp only [List.flatMap_nil, List.nil_append, List.find?_nil,
      Option.map_none, Option.getD_none]
    exact DevBpf.run_finalize ctx D regs
  | cons r rs ih =>
    rw [DevBpf.rulesInsns] at hblocks
    cases hri : DevBpf.ruleInsns r with
    | error e =>
      rw [hri] at hblocks
      exact absurd hblocks (by simp [bind, Except.bind])
    | ok b =>
      cases hrs : DevBpf.rulesInsns rs with
      | error e =>
        rw [hri, hrs] at hblocks
        exact absurd hblocks (by simp [bind, Except.bind])
      | ok bs =>
        rw [hri, hrs] at hblocks
        simp only [bind, Except.bind, pure, Except.pure, Except.ok.injEq]
          at hblocks
        subst hblocks
        obtain ⟨dt, ra, hdt, hra⟩ := DevBpf.ruleInsns_ok_inv r b hri
        have hb : b = DevBpf.blockOf dt ra (DevBpf.optM r.major)
            (DevBpf.optM r.minor) r.allow := by
          have := DevBpf.ruleInsns_eq_blockOf r dt ra hdt hra
          rw [hri] at this
          exact (Except.ok.injEq _ _).mp this
        have hra8 : ra < 8 := DevBpf.bpf_access_go_lt _ _ _ (by norm_num) hra
        have hdt12 : dt = 1 ∨ dt = 2 := DevBpf.bpf_dev_type_vals _ _ hdt
        obtain ⟨hMb, hNb⟩ := hwf r (List.mem_cons_self r rs)
        obtain ⟨regs2, k2, k3, k4, k5, hrun⟩ :=
          DevBpf.run_blockOf ctx dt ra (DevBpf.optM r.major)
            (DevBpf.optM r.minor) r.allow
            (bs.flatMap id ++ DevBpf.finalizeInsns D) regs t a maj minr
            hdt12 hra8 ha (DevBpf.optM_bound _ hMb) (DevBpf.optM_bound _ hNb)
            h2 h3 h4 h5
    
        rw [← DevBpf.matchesVals_eq r dt ra hdt hra t a maj minr] at hrun
        rw [List.flatMap_cons, hb, List.append_assoc]
        simp only [id_eq]
        rw [hrun, List.find?_cons]
        cases hm : DevBpf.matchesVals r t a maj minr
        · simp only [Bool.false_eq_true, if_false, ite_false]
          exact ih bs regs2 hrs
            (fun x hx => hwf x (List.mem_cons_of_mem _ hx)) k2 k3 k4 k5
        · simp

theorem DevBpf.land64_idem_small (v : Nat) (hv : v = 1 ∨ v = 2) :
    DevBpf.land64 v 0xFFFF = v := by
  rcases hv with rfl | rfl <;> decide

theorem DevBpf.specMatches_eq (r : DevBpf.LinuxDeviceCgroup)
    (req : DevBpf.DevRequest) (qt qa : Nat)
    (hqt : DevBpf.bpf_dev_type req.typ = .ok qt)
    (hqa : DevBpf.bpf_access req.access = .ok qa)
    (hmaj : req.major < 2 ^ 32) (hmin : req.minor < 2 ^ 32) :
    DevBpf.specMatches r req =
      DevBpf.matchesVals r qt qa (req.major % 2 ^ 32) (req.minor % 2 ^ 32) := by
  rw [DevBpf.specMatches, DevBpf.matchesVals, hqt, hqa,
    Nat.mod_eq_of_lt hmaj, Nat.mod_eq_of_lt hmin]
  cases hrt : DevBpf.bpf_dev_type (r.typ.getD .A) with
  | error e => rfl
  | ok rt =>
    cases hra : DevBpf.bpf_access (r.access.getD "") with
    | error e => rfl
    | ok ra =>
      dsimp only
      have e1 : decide (rt = qt) = decide (qt = rt) :=
        decide_eq_decide.mpr eq_comm
      have eM : (match r.major with
          | some m => if 0 ≤ m then decide (m = (req.major : Int)) else true
          | none => true) =
          (match r.major with
          | some m => if 0 ≤ m then decide (req.major = m.toNat) else true
          | none => true) := by
        rcases r.major with _ | m
        · rfl
        · dsimp only
          by_cases h0 : 0 ≤ m
          · rw [if_pos h0, if_pos h0]
            exact decide_eq_decide.mpr (by omega)
          · rw [if_neg h0, if_neg h0]
      have eN : (match r.minor with
          | some m => if 0 ≤ m then decide (m = (req.minor : Int)) else true
          | none => true) =
          (match r.minor with
          | some m => if 0 ≤ m then decide (req.minor = m.toNat) else true
          | none => true) := by
        rcases r.minor with _ | n
        · rfl
        · dsimp only
          by_cases h0 : 0 ≤ n
          · rw [if_pos h0, if_pos h0]
            exact decide_eq_decide.mpr (by omega)
          · rw [if_neg h0, if_neg h0]
      rw [e1, eM, eN]

theorem DevBpf.ctx_pack2 (t a : Nat) (ht : t = 1 ∨ t = 2) (ha : a < 8) :
    DevBpf.lor64 t (a <<< 16) = t + a * 65536 := by
  rcases ht with rfl | rfl <;> interval_cases a <;> decide

/-- C1: for every list of device rules whose types are block or char, whose
access strings contain only `r`/`w`/`m` characters, and whose specified major
and minor values are below `2 ^ 31`, and every request of block or char type
with a valid access string and 32-bit major and minor, compiling the rules
with `Program::from_rules` under default `D` succeeds, building the request
context succeeds, and executing the program on that context returns the
`allow` field of the last rule in the list that matches the request, or `D`
when no rule matches.  (The `2 ^ 31` bound on rule major/minor is the
correction: a specified value in `[2 ^ 31, 2 ^ 32)` is truncated to a
negative `i32` immediate and sign-extended by the VM, so such a rule never
matches - see the counterexample.) -/
theorem C1_device_ebpf (rules : List DevBpf.LinuxDeviceCgroup) (D : Bool)
    (req : DevBpf.DevRequest)
    (hrules : ∀ r ∈ rules,
      (r.typ.getD .A = .B ∨ r.typ.getD .A = .C) ∧
      (∀ c ∈ (r.access.getD "").data, c = 'r' ∨ c = 'w' ∨ c = 'm') ∧
      r.major.getD 0 < 2 ^ 31 ∧ r.minor.getD 0 < 2 ^ 31)
    (hqtyp : req.typ = .B ∨ req.typ = .C)
    (hqacc : ∀ c ∈ req.access.data, c = 'r' ∨ c = 'w' ∨ c = 'm')
    (hqmaj : req.major < 2 ^ 32) (hqmin : req.minor < 2 ^ 32) :
    ∃ prog ctx,
      DevBpf.from_rules rules D = .ok prog ∧
      DevBpf.bpf_cgroup_dev_ctx req.typ req.major req.minor req.access =
        .ok ctx ∧
      DevBpf.execute prog ctx =
        some (DevBpf.boolVal ((DevBpf.lastMatch rules req).getD D)) := by
  have hqt : ∃ qt, DevBpf.bpf_dev_type req.typ = .ok qt ∧
      (qt = 1 ∨ qt = 2) := by
    rcases hqtyp with h | h <;> rw [h]
    · exact ⟨1, rfl, Or.inl rfl⟩
    · exact ⟨2, rfl, Or.inr rfl⟩
  obtain ⟨qt, hqt, hqt12⟩ := hqt
  obtain ⟨qa, hqa, hqa8⟩ := DevBpf.bpf_access_ok req.access hqacc
  obtain ⟨bs, hbs⟩ := DevBpf.rulesInsns_ok rules.reverse
    (fun r hr => ⟨(hrules r (List.mem_reverse.mp hr)).1,
      (hrules r (List.mem_reverse.mp hr)).2.1⟩)
  refine ⟨DevBpf.initInsns ++ (bs.flatMap id ++ DevBpf.finalizeInsns D),
    ⟨qt + qa * 65536, req.major % 2 ^ 32, req.minor % 2 ^ 32⟩, ?_, ?_, ?_⟩
  · rw [DevBpf.from_rules, hbs]
    rfl
  · rw [DevBpf.bpf_cgroup_dev_ctx, hqt, hqa]
    simp only [bind, Except.bind, pure, Except.pure,
      DevBpf.land64_idem_small qt hqt12, DevBpf.ctx_pack2 qt qa hqt12 hqa8]
  · rw [DevBpf.execute,
      DevBpf.run_init qt qa (req.major % 2 ^ 32) (req.minor % 2 ^ 32)
        hqt12 hqa8 (bs.flatMap id ++ DevBpf.finalizeInsns D),
      DevBpf.run_rules _ rules.reverse bs D _ qt qa
        (req.major % 2 ^ 32) (req.minor % 2 ^ 32) hbs
        (fun r hr => (hrules r (List.mem_reverse.mp hr)).2.2) hqa8
        (by simp [DevBpf.upd_apply]) (by simp [DevBpf.upd_apply])
        (by simp [DevBpf.upd_apply]) (by simp [DevBpf.upd_apply]),
      DevBpf.lastMatch,
      DevBpf.find_congr _ _ rules.reverse
        (fun x _ => DevBpf.specMatches_eq x req qt qa hqt hqa hqmaj hqmin)]

set_option maxRecDepth 10000 in
theorem C1_device_ebpf_witness :
    (∀ r ∈ [(⟨true, some .C, some 1, some 3, some "rwm"⟩ :
        DevBpf.LinuxDeviceCgroup),
        (⟨false, some .C, none, none, some "rwm"⟩ :
        DevBpf.LinuxDeviceCgroup)],
      (r.typ.getD .A = .B ∨ r.typ.getD .A = .C) ∧
      (∀ c ∈ (r.access.getD "").data, c = 'r' ∨ c = 'w' ∨ c = 'm') ∧
      r.major.getD 0 < 2 ^ 31 ∧ r.minor.getD 0 < 2 ^ 31) ∧
    ((DevBpf.DevRequest.mk .C 1 3 "r").typ = .B ∨
     (DevBpf.DevRequest.mk .C 1 3 "r").typ = .C) ∧
    (∀ c ∈ (DevBpf.DevRequest.mk .C 1 3 "r").access.data,
      c = 'r' ∨ c = 'w' ∨ c = 'm') ∧
    (DevBpf.DevRequest.mk .C 1 3 "r").major < 2 ^ 32 ∧
    (DevBpf.DevRequest.mk .C 1 3 "r").minor < 2 ^ 32 ∧
    DevBpf.lastMatch
      [⟨true, some .C, some 1, some 3, some "rwm"⟩,
       ⟨false, some .C, none, none, some "rwm"⟩]
      (DevBpf.DevRequest.mk .C 1 3 "r") = some false ∧
    (∃ prog ctx,
      DevBpf.from_rules
        [⟨true, some .C, some 1, some 3, some "rwm"⟩,
         ⟨false, some .C, none, none, some "rwm"⟩] true = .ok prog ∧
      DevBpf.bpf_cgroup_dev_ctx .C 1 3 "r" = .ok ctx ∧
      DevBpf.execute prog ctx =
        some (DevBpf.boolVal
          ((DevBpf.lastMatch
            [⟨true, some .C, some 1, some 3, some "rwm"⟩,
             ⟨false, some .C, none, none, some "rwm"⟩]
            (DevBpf.DevRequest.mk .C 1 3 "r")).getD true))) :=
  ⟨by decide, by decide, by decide, by decide, by decide, by decide,
   C1_device_ebpf
     [⟨true, some .C, some 1, some 3, some "rwm"⟩,
      ⟨false, some .C, none, none, some "rwm"⟩] true
     (DevBpf.DevRequest.mk .C 1 3 "r")
     (by decide) (by decide) (by decide) (by decide) (by decide)⟩
